import Mathlib

/-!
# DataMate (Data-Analyst-Assistant) — verification of the orchestration contract

Shallow embedding of the two source files of the repository:

* `agent.py` — `execute_python_code`, `DataAnalystAgent.run` (prompt build, model
  call, fenced-code extraction, sandboxed execution, output validation);
* `app.py`  — `handle_analysis_request` (scratch directory lifecycle, file
  persistence, agent invocation, HTTP response mapping, guaranteed cleanup).

Python strings are modelled as `List Char`.  Process-global state (current
working directory, `sys.stdout`, `sys.stderr`) is threaded explicitly through a
`ProcState`.  The behaviour of a generated script — which is arbitrary Python
text produced by the external model at request time — is abstracted by what it
writes to the redirected standard streams and whether the `exec` call raises an
exception that `except Exception` catches; the script observes the process
working directory (that is how relative file references resolve).

External libraries are modelled where the orchestration contract depends on
them: the `json` module (`json.loads` / `json.dumps`) is given an executable
model whose numeric literals are restricted to integers, and Flask's `jsonify`
is modelled as serialization with recursively sorted object keys (the
`sort_keys=True` default of Flask's JSON provider).
-/

namespace DataMate

/-- Python strings, modelled as lists of characters. -/
abbrev Str := List Char

/-- The whitespace characters stripped by Python's `str.strip()`
(space, tab, newline, carriage return, vertical tab, form feed). -/
def pyWs (c : Char) : Bool :=
  c == ' ' || c == '\t' || c == '\n' || c == '\x0d' ||
  c == Char.ofNat 11 || c == Char.ofNat 12

/-- Python's `str.strip()`: remove leading and trailing whitespace. -/
def pyStrip (s : Str) : Str :=
  ((s.dropWhile pyWs).reverse.dropWhile pyWs).reverse

/-! ## Fenced-code extraction (`agent.py`, lines 100–104)

The source runs `re.search(r"```(python\s*)?([\s\S]+)```", text, re.MULTILINE)`
and, on a match, uses `match.group(2).strip()`; otherwise `text.strip()`.

`re.search` semantics for this pattern: the match starts at the leftmost
position where the whole pattern can match.  After the opening fence the
optional group `(python\s*)?` is tried greedily (with backtracking on `\s*`),
and the greedy `[\s\S]+` extends group 2 to the *last* closing fence of the
remaining text (it must consume at least one character). -/

/-- The three-backtick fence. -/
def fence : Str := '`' :: '`' :: '`' :: []

/-- The optional language tag of group 1. -/
def pythonTag : Str := 'p' :: 'y' :: 't' :: 'h' :: 'o' :: 'n' :: []

/-- Does a fence occur at offset `j` of `r`? -/
def fenceAtB (r : Str) (j : Nat) : Bool :=
  fence.isPrefixOf (r.drop j)

/-- Offset of the last fence occurrence in `r`, if any. -/
def lastFencePos (r : Str) : Option Nat :=
  ((List.range r.length).filter (fenceAtB r)).getLast?

/-- Group 2 of the regex when matching `(python\s*)?([\s\S]+)```` against `r`
(the text that followed an opening fence).  `none` when no match is possible.
The greedy `[\s\S]+` ends at the last fence position `J` of `r`; the optional
group consumes `python` plus as much trailing regex whitespace as backtracking
allows (`k = min w (J - 7)`). -/
def matchAfterFence (r : Str) : Option Str :=
  match lastFencePos r with
  | none => none
  | some J =>
    if pythonTag.isPrefixOf r && decide (7 ≤ J) then
      let w := ((r.drop 6).takeWhile pyWs).length
      let k := min w (J - 7)
      some ((r.drop (6 + k)).take (J - (6 + k)))
    else if 1 ≤ J then
      some (r.take J)
    else none

/-- `re.search` for the fenced-code pattern: try every start position from the
left; a match must begin with a fence. -/
def searchFenced : Str → Option Str
  | [] => none
  | c :: cs =>
    if fence.isPrefixOf (c :: cs) then
      match matchAfterFence ((c :: cs).drop 3) with
      | some g => some g
      | none => searchFenced cs
    else searchFenced cs

/-- Code extraction of `DataAnalystAgent.run` (lines 100–104): group 2 of the
first regex match, stripped; if the pattern does not match anywhere, the whole
response text, stripped. -/
def extractCode (text : Str) : Str :=
  match searchFenced text with
  | some g => pyStrip g
  | none => pyStrip text

/-! ## JSON values

Modelled from the `json` standard-library module used by both source files
(`json.loads` at `agent.py` line 123 and `app.py` line 54, the final
`print(json.dumps(...))` contract of the generated script, and Flask's
`jsonify`).  Objects are association lists in textual order; numeric literals
are restricted to integers (the generated-script contract tells the model to
coerce numpy numbers to standard `int`/`float`; float formatting semantics are
outside this model's scope). -/

mutual
inductive JsonVal : Type where
  | null : JsonVal
  | bool (b : Bool) : JsonVal
  | num (n : Int) : JsonVal
  | str (s : Str) : JsonVal
  | arr (xs : JsonArr) : JsonVal
  | obj (ms : JsonObj) : JsonVal
inductive JsonArr : Type where
  | nil : JsonArr
  | cons (hd : JsonVal) (tl : JsonArr) : JsonArr
inductive JsonObj : Type where
  | nil : JsonObj
  | cons (k : Str) (v : JsonVal) (tl : JsonObj) : JsonObj
end

/-- The `{` character. -/
def lbrace : Char := Char.ofNat 123
/-- The `}` character. -/
def rbrace : Char := Char.ofNat 125
/-- The `"` character. -/
def quoteC : Char := Char.ofNat 34
/-- The `\` character. -/
def bslash : Char := Char.ofNat 92

/-- Lower-case hexadecimal digit, as emitted by `json.dumps` `\uXXXX` escapes. -/
def hexDigit (n : Nat) : Char :=
  if n < 10 then Char.ofNat (48 + n) else Char.ofNat (87 + n)

/-- Four-digit hexadecimal rendering of `n < 0x10000`. -/
def hex4 (n : Nat) : Str :=
  [hexDigit (n / 4096 % 16), hexDigit (n / 256 % 16), hexDigit (n / 16 % 16), hexDigit (n % 16)]

/-- `json.dumps` escaping of a single character (default `ensure_ascii=True`:
printable ASCII other than the quote and backslash passes through, everything
else is escaped; astral characters become surrogate pairs). -/
def escapeChar (c : Char) : Str :=
  if c = quoteC then [bslash, quoteC]
  else if c = bslash then [bslash, bslash]
  else if c = '\n' then [bslash, 'n']
  else if c = '\t' then [bslash, 't']
  else if c = '\x0d' then [bslash, 'r']
  else if c = Char.ofNat 8 then [bslash, 'b']
  else if c = Char.ofNat 12 then [bslash, 'f']
  else if 32 ≤ c.toNat && c.toNat ≤ 126 then [c]
  else if c.toNat < 65536 then bslash :: 'u' :: hex4 c.toNat
  else
    (bslash :: 'u' :: hex4 (55296 + (c.toNat - 65536) / 1024)) ++
      (bslash :: 'u' :: hex4 (56320 + (c.toNat - 65536) % 1024))

/-- `json.dumps` escaping of a string body. -/
def escapeStr (s : Str) : Str := s.foldr (fun c r => escapeChar c ++ r) []

/-- Decimal digit character. -/
def digitChar (n : Nat) : Char := Char.ofNat (48 + n)

/-- Decimal rendering of a natural number (fuel-based so that it reduces
definitionally; `natDigs` supplies sufficient fuel). -/
def natDigsAux : Nat → Nat → Str
  | 0, _ => []
  | fuel + 1, n => if n < 10 then [digitChar n] else natDigsAux fuel (n / 10) ++ [digitChar (n % 10)]

/-- Python's decimal rendering of a natural number. -/
def natDigs (n : Nat) : Str := natDigsAux (n + 1) n

/-- Python's decimal rendering of an integer. -/
def intDigs (i : Int) : Str :=
  if i < 0 then '-' :: natDigs i.natAbs else natDigs i.natAbs

mutual
/-- `json.dumps` with its default separators `", "` and `": "`. -/
def dumpsV : JsonVal → Str
  | .null => 'n' :: 'u' :: 'l' :: 'l' :: []
  | .bool true => 't' :: 'r' :: 'u' :: 'e' :: []
  | .bool false => 'f' :: 'a' :: 'l' :: 's' :: 'e' :: []
  | .num n => intDigs n
  | .str s => quoteC :: (escapeStr s ++ [quoteC])
  | .arr a => '[' :: (dumpsA a ++ [']'])
  | .obj o => lbrace :: (dumpsO o ++ [rbrace])
termination_by structural v => v
/-- Array elements, `", "`-separated. -/
def dumpsA : JsonArr → Str
  | .nil => []
  | .cons x .nil => dumpsV x
  | .cons x (.cons y tl) => dumpsV x ++ ',' :: ' ' :: dumpsA (.cons y tl)
termination_by structural a => a
/-- Object members, `", "`-separated, each `"key": value`. -/
def dumpsO : JsonObj → Str
  | .nil => []
  | .cons k v .nil => quoteC :: (escapeStr k ++ quoteC :: ':' :: ' ' :: dumpsV v)
  | .cons k v (.cons k2 v2 tl) =>
    (quoteC :: (escapeStr k ++ quoteC :: ':' :: ' ' :: dumpsV v)) ++ ',' :: ' ' :: dumpsO (.cons k2 v2 tl)
termination_by structural o => o
end

/-- One `"key": value` member of a serialized object. -/
def dumpsKV (k : Str) (v : JsonVal) : Str :=
  quoteC :: (escapeStr k ++ quoteC :: ':' :: ' ' :: dumpsV v)

/-! ### The JSON reader (model of `json.loads`) -/

/-- JSON whitespace accepted between tokens by `json.loads`. -/
def jsonWs (c : Char) : Bool :=
  c == ' ' || c == '\t' || c == '\n' || c == '\x0d'

/-- Skip JSON whitespace. -/
def skipWs (s : Str) : Str := s.dropWhile jsonWs

/-- Decoding of a single-character escape. -/
def escDecode (c : Char) : Option Char :=
  if c = quoteC then some quoteC
  else if c = bslash then some bslash
  else if c = '/' then some '/'
  else if c = 'b' then some (Char.ofNat 8)
  else if c = 'f' then some (Char.ofNat 12)
  else if c = 'n' then some '\n'
  else if c = 'r' then some '\x0d'
  else if c = 't' then some '\t'
  else none

/-- Value of a hexadecimal digit. -/
def hexVal (c : Char) : Option Nat :=
  if '0' ≤ c ∧ c ≤ '9' then some (c.toNat - 48)
  else if 'a' ≤ c ∧ c ≤ 'f' then some (c.toNat - 87)
  else if 'A' ≤ c ∧ c ≤ 'F' then some (c.toNat - 55)
  else none

/-- String body after the opening quote: strict mode (control characters are
rejected), escapes decoded.  Returns the decoded string and the text after the
closing quote. -/
def parseStrBody : Str → Option (Str × Str)
  | [] => none
  | c :: rest =>
    if c = quoteC then some ([], rest)
    else if c = bslash then
      match rest with
      | [] => none
      | e :: rest2 =>
        if e = 'u' then
          match rest2 with
          | h1 :: h2 :: h3 :: h4 :: rest3 =>
            match hexVal h1, hexVal h2, hexVal h3, hexVal h4 with
            | some a, some b, some c2, some d =>
              match parseStrBody rest3 with
              | some (s, r) => some (Char.ofNat (4096 * a + 256 * b + 16 * c2 + d) :: s, r)
              | none => none
            | _, _, _, _ => none
          | _ => none
        else
          match escDecode e with
          | some d =>
            match parseStrBody rest2 with
            | some (s, r) => some (d :: s, r)
            | none => none
          | none => none
    else if c.toNat < 32 then none
    else
      match parseStrBody rest with
      | some (s, r) => some (c :: s, r)
      | none => none

/-- Numeric value of a digit string. -/
def digitsToNat (ds : Str) : Nat := ds.foldl (fun a c => 10 * a + (c.toNat - 48)) 0

/-- JSON integer part: `0` or a digit run without a leading zero. -/
def parseNat : Str → Option (Nat × Str)
  | [] => none
  | c :: rest =>
    if c = '0' then some (0, rest)
    else if c.isDigit then
      let ds := (c :: rest).takeWhile Char.isDigit
      some (digitsToNat ds, (c :: rest).drop ds.length)
    else none

mutual
/-- One JSON value (with leading whitespace); fuel-indexed so that the
definition reduces definitionally.  Numeric literals are integers (a following
`.`/`e` makes the surrounding parse fail, mirroring that floats are outside
this model). -/
def parseVal : Nat → Str → Option (JsonVal × Str)
  | 0, _ => none
  | fuel + 1, s =>
    match skipWs s with
    | [] => none
    | c :: rest =>
      if c = lbrace then
        match skipWs rest with
        | c2 :: rest2 =>
          if c2 = rbrace then some (.obj .nil, rest2)
          else
            match parseMembers fuel rest with
            | some (ms, r) => some (.obj ms, r)
            | none => none
        | [] => none
      else if c = '[' then
        match skipWs rest with
        | c2 :: rest2 =>
          if c2 = ']' then some (.arr .nil, rest2)
          else
            match parseElems fuel rest with
            | some (xs, r) => some (.arr xs, r)
            | none => none
        | [] => none
      else if c = quoteC then
        match parseStrBody rest with
        | some (s2, r) => some (.str s2, r)
        | none => none
      else if c = 't' then
        match rest with
        | 'r' :: 'u' :: 'e' :: r => some (.bool true, r)
        | _ => none
      else if c = 'f' then
        match rest with
        | 'a' :: 'l' :: 's' :: 'e' :: r => some (.bool false, r)
        | _ => none
      else if c = 'n' then
        match rest with
        | 'u' :: 'l' :: 'l' :: r => some (.null, r)
        | _ => none
      else if c = '-' then
        match parseNat rest with
        | some (n, r) => some (.num (-(n : Int)), r)
        | none => none
      else
        match parseNat (c :: rest) with
        | some (n, r) => some (.num (n : Int), r)
        | none => none
/-- Non-empty comma-separated element list, up to and including `]`. -/
def parseElems : Nat → Str → Option (JsonArr × Str)
  | 0, _ => none
  | fuel + 1, s =>
    match parseVal fuel s with
    | none => none
    | some (v, r) =>
      match skipWs r with
      | c :: r2 =>
        if c = ',' then
          match parseElems fuel r2 with
          | some (vs, r3) => some (.cons v vs, r3)
          | none => none
        else if c = ']' then some (.cons v .nil, r2)
        else none
      | [] => none
/-- Non-empty comma-separated member list, up to and including `}`. -/
def parseMembers : Nat → Str → Option (JsonObj × Str)
  | 0, _ => none
  | fuel + 1, s =>
    match skipWs s with
    | c :: rest =>
      if c = quoteC then
        match parseStrBody rest with
        | none => none
        | some (k, r) =>
          match skipWs r with
          | c2 :: r2 =>
            if c2 = ':' then
              match parseVal fuel r2 with
              | none => none
              | some (v, r3) =>
                match skipWs r3 with
                | c3 :: r4 =>
                  if c3 = ',' then
                    match parseMembers fuel r4 with
                    | some (ms, r5) => some (.cons k v ms, r5)
                    | none => none
                  else if c3 = rbrace then some (.cons k v .nil, r4)
                  else none
                | [] => none
            else none
          | [] => none
      else none
    | [] => none
end

/-- `json.loads`: one value, optionally surrounded by whitespace; anything else
after it is an error ("Extra data"). -/
def jsonParse (s : Str) : Option JsonVal :=
  match parseVal (s.length + 1) s with
  | some (v, r) =>
    match skipWs r with
    | [] => some v
    | _ :: _ => none
  | none => none

/-! ### Flask's `jsonify` (model)

Flask's default JSON provider serializes with `sort_keys=True`: object keys are
emitted in ascending string order, recursively.  Only the resulting value
(after a parse of the body) matters to the claims; separator width is kept as
in `json.dumps`. -/

/-- Python string `<=` (code-point lexicographic). -/
def keyLe : Str → Str → Bool
  | [], _ => true
  | _ :: _, [] => false
  | a :: as, b :: bs => if a = b then keyLe as bs else decide (a.toNat < b.toNat)

/-- Insert a member into a key-sorted member list, before any member with an
equal key (so that, fed right to left, the sort is stable like Python's). -/
def insertKV (k : Str) (v : JsonVal) : JsonObj → JsonObj
  | .nil => .cons k v .nil
  | .cons k2 v2 tl =>
    if keyLe k k2 then .cons k v (.cons k2 v2 tl) else .cons k2 v2 (insertKV k v tl)

/-- Insertion sort of a member list by key. -/
def insortO : JsonObj → JsonObj
  | .nil => .nil
  | .cons k v tl => insertKV k v (insortO tl)

mutual
/-- Recursively sort all object keys (the observable effect of
`sort_keys=True`). -/
def sortKeysV : JsonVal → JsonVal
  | .null => .null
  | .bool b => .bool b
  | .num n => .num n
  | .str s => .str s
  | .arr a => .arr (sortKeysA a)
  | .obj o => .obj (insortO (sortKeysO o))
termination_by structural v => v
/-- Sort keys inside every array element. -/
def sortKeysA : JsonArr → JsonArr
  | .nil => .nil
  | .cons x tl => .cons (sortKeysV x) (sortKeysA tl)
termination_by structural a => a
/-- Sort keys inside every member value (no reordering at this level). -/
def sortKeysO : JsonObj → JsonObj
  | .nil => .nil
  | .cons k v tl => .cons k (sortKeysV v) (sortKeysO tl)
termination_by structural o => o
end

/-- The body `jsonify(x)` produces: `sort_keys=True` serialization. -/
def flaskJsonify (v : JsonVal) : Str := dumpsV (sortKeysV v)

/-- ASCII characters that `json.dumps` emits verbatim inside a string. -/
def plainChar (c : Char) : Bool :=
  32 ≤ c.toNat && c.toNat ≤ 126 && c != quoteC && c != bslash

/-- A string of plain characters. -/
def plainStr (s : Str) : Bool := s.all plainChar

mutual
/-- Values whose strings (keys and string values) are all plain. -/
def plainV : JsonVal → Bool
  | .null => true
  | .bool _ => true
  | .num _ => true
  | .str s => plainStr s
  | .arr a => plainA a
  | .obj o => plainO o
termination_by structural v => v
/-- All elements plain. -/
def plainA : JsonArr → Bool
  | .nil => true
  | .cons x tl => plainV x && plainA tl
termination_by structural a => a
/-- All keys and values plain. -/
def plainO : JsonObj → Bool
  | .nil => true
  | .cons k v tl => plainStr k && plainV v && plainO tl
termination_by structural o => o
end

/-! ## Process state and `execute_python_code` (`agent.py`, lines 13–40) -/

/-- A value held by `sys.stdout` / `sys.stderr`: either the process's real
stream handle or an in-memory `io.StringIO` buffer. -/
inductive StreamV : Type where
  | handle (id : Nat) : StreamV
  | strBuf (buf : Str) : StreamV

/-- `stream.write(t)`: appends to a string buffer; writes to a real handle
leave the modelled state unchanged (they go to the server console). -/
def StreamV.write : StreamV → Str → StreamV
  | .handle n, _ => .handle n
  | .strBuf b, t => .strBuf (b ++ t)

/-- `stringio.getvalue()` (only ever called on the redirected buffers). -/
def StreamV.getvalue : StreamV → Str
  | .handle _ => []
  | .strBuf b => b

/-- The process-global mutable state the orchestrator touches: the current
working directory and the two standard streams. -/
structure ProcState where
  cwd : Str
  stdout : StreamV
  stderr : StreamV

/-- The observable behaviour of executing one generated script with `exec`:
what it writes to the (redirected) standard output and standard error up to
the point where it finishes or raises, and — if it raises an exception that
`except Exception` catches — the exception text whose formatted traceback is
then appended to stderr. -/
structure ScriptBehavior where
  outText : Str
  errText : Str
  raises : Option Str

/-- The dictionary returned by `execute_python_code`: exactly the two string
fields `stdout` and `stderr`. -/
structure ExecResult where
  stdout : Str
  stderr : Str

/-- `traceback.format_exc()`: the formatted traceback always starts with the
`Traceback (most recent call last):` header line. -/
def formatExc (e : Str) : Str :=
  "Traceback (most recent call last):\n".data ++ e

/-- `execute_python_code` (lines 13–40): redirect `sys.stdout`/`sys.stderr` to
fresh `StringIO` buffers, `exec` the code, catch any exception and write its
formatted traceback to the redirected stderr, then — in `finally` — capture
both buffers and restore the original streams. -/
def execute_python_code (beh : ScriptBehavior) (st : ProcState) : ExecResult × ProcState :=
  let old_stdout := st.stdout
  let old_stderr := st.stderr
  let st1 : ProcState := { st with stdout := .strBuf [], stderr := .strBuf [] }
  let st2 : ProcState :=
    { st1 with stdout := st1.stdout.write beh.outText, stderr := st1.stderr.write beh.errText }
  let st3 : ProcState :=
    match beh.raises with
    | some e => { st2 with stderr := st2.stderr.write (formatExc e) }
    | none => st2
  let res : ExecResult := { stdout := st3.stdout.getvalue, stderr := st3.stderr.getvalue }
  (res, { st3 with stdout := old_stdout, stderr := old_stderr })

/-- The execution result as a function of the script behaviour alone (the
redirected buffers start empty, so the captured text does not depend on the
incoming process state; `exec_result_eq` below proves the agreement). -/
def execResultOf (beh : ScriptBehavior) : ExecResult :=
  { stdout := beh.outText
    stderr :=
      match beh.raises with
      | some e => beh.errText ++ formatExc e
      | none => beh.errText }

/-- A raised Python exception, classified by whether it is an instance of
`Exception` — the only class the `except Exception` clause at `agent.py`
line 32 matches — or a `BaseException` that is not an `Exception`, such as
`SystemExit` or `KeyboardInterrupt`, which that clause does not match. -/
inductive PyExc : Type where
  | exc (trace : Str) : PyExc
  | baseExc (name : Str) : PyExc

/-- Script behaviour refined to record the class of a raised exception.
`ScriptBehavior` above models only exceptions that `except Exception`
catches; this refinement distinguishes the uncaught `BaseException` path
(e.g. a script whose text is `raise SystemExit`). -/
structure ScriptBehaviorB where
  outText : Str
  errText : Str
  raises : Option PyExc

/-- `execute_python_code` on the refined behaviour: identical to
`execute_python_code` above, except that a raised `BaseException` that is not
an `Exception` is not matched by the `except Exception` clause (line 32). The
`finally` block (lines 35–38) still runs — it captures the buffers into
locals and restores the original streams — but the `return` at line 40 is
never reached: the exception propagates out of the function (`Except.error`),
so no dictionary is returned to the caller. -/
def execute_python_code_b (beh : ScriptBehaviorB) (st : ProcState) :
    Except Str ExecResult × ProcState :=
  let old_stdout := st.stdout
  let old_stderr := st.stderr
  let st1 : ProcState := { st with stdout := .strBuf [], stderr := .strBuf [] }
  let st2 : ProcState :=
    { st1 with stdout := st1.stdout.write beh.outText, stderr := st1.stderr.write beh.errText }
  match beh.raises with
  | some (.exc e) =>
      let st3 : ProcState := { st2 with stderr := st2.stderr.write (formatExc e) }
      (.ok { stdout := st3.stdout.getvalue, stderr := st3.stderr.getvalue },
        { st3 with stdout := old_stdout, stderr := old_stderr })
  | some (.baseExc b) =>
      (.error b, { st2 with stdout := old_stdout, stderr := old_stderr })
  | none =>
      (.ok { stdout := st2.stdout.getvalue, stderr := st2.stderr.getvalue },
        { st2 with stdout := old_stdout, stderr := old_stderr })

/-! ## `DataAnalystAgent.run` (`agent.py`, lines 58–135) -/

/-- `", ".join(files) if files else "No files were uploaded."` (line 62). -/
def joinComma : List Str → Str
  | [] => []
  | [f] => f
  | f :: g :: tl => f ++ ',' :: ' ' :: joinComma (g :: tl)

/-- The file-list fragment of the prompt. -/
def fileListStr (files : List Str) : Str :=
  if files.isEmpty then "No files were uploaded.".data else joinComma files

/-- The prompt template (lines 65–87), an f-string with the file list and the
question text interpolated. -/
def buildPrompt (question : Str) (files : List Str) : Str :=
  "You are an expert Python data analyst. Your task is to write a single, self-contained Python script to answer the user's request.\n\nUser's files available in the current directory: [".data
  ++ fileListStr files
  ++ "]\nUser's request:\n---\n".data
  ++ question
  ++ "\n---\n\nCRITICAL INSTRUCTIONS:\n1.  Your output MUST be a single Python script wrapped in ```python ... ```.\n2.  **MATPLOTLIB SETUP:** If you need to generate a plot, the first three lines of your script MUST be exactly:\n    ```python\n    import matplotlib\n    matplotlib.use('Agg')\n    import matplotlib.pyplot as plt\n    ```\n    This prevents server errors.\n3.  **PLOT GENERATION:** The script must generate plots, save them to an in-memory buffer (`io.BytesIO`), encode them to a base64 string, and format as a data URI (`data:image/png;base64,...`).\n4.  **FINAL OUTPUT:** The **very last line of your script** MUST be a single `print()` statement that outputs a valid JSON array or object containing all the answers. Convert numpy types (like np.int64) to standard Python types (int, float) before creating the JSON.\n\nExample of a final line for a script requesting a number, a string, and a plot:\n`print(json.dumps([int(some_numpy_number), \"some_string\", plot_data_uri]))`\n".data

/-- Outcome of `self.model.generate_content(prompt, ...)`: a response with
candidates and text, a blocked response with no candidates (its
`prompt_feedback` rendered as text), or a raised
`RetryError`/`DeadlineExceeded` (its `str(e)` text). -/
inductive ModelCallResult : Type where
  | ok (text : Str) : ModelCallResult
  | blocked (feedback : Str) : ModelCallResult
  | timeout (msg : Str) : ModelCallResult

/-- The exception `Agent.run` lets escape: an upstream timeout/retry error
(re-raised distinctly at line 127), a generic exception whose message the
source builds (`ValueError` / `Exception`, re-raised at line 133), or the
`json.JSONDecodeError` of `json.loads` on the given text (its message comes
from the json library, not from this repository). -/
inductive RunError : Type where
  | apiTimeout (msg : Str) : RunError
  | failure (msg : Str) : RunError
  | jsonFailure (badText : Str) : RunError

/-- The trace marker looked for in captured stderr (line 112). -/
def tbMarker : Str := "Traceback".data

/-- Python's substring test `p in s`. -/
def isSubstr (p : Str) : Str → Bool
  | [] => p.isEmpty
  | c :: rest => p.isPrefixOf (c :: rest) || isSubstr p rest

/-- `DataAnalystAgent.run` (lines 58–135).  `model` is the external generation
service (applied to the built prompt); `scriptSem` gives the behaviour of
executing a script text while the process is in a given working directory.
The working directory is switched to `work_dir` at the start and restored in
`finally`; both `except` clauses re-raise, so the outcome of the `try` body is
propagated unchanged. -/
def agentRun (work_dir question : Str) (files : List Str)
    (model : Str → ModelCallResult) (scriptSem : Str → Str → ScriptBehavior)
    (st : ProcState) : Except RunError Str × ProcState :=
  let original_dir := st.cwd
  let st0 : ProcState := { st with cwd := work_dir }
  let prompt := buildPrompt question files
  let (r, st1) :=
    match model prompt with
    | .timeout m => (Except.error (RunError.apiTimeout m), st0)
    | .blocked feedback =>
      (Except.error (RunError.failure
        ("API call failed: The request was likely blocked. Feedback: ".data ++ feedback)), st0)
    | .ok text =>
      let code_to_execute := extractCode text
      let (result, st2) := execute_python_code (scriptSem code_to_execute st0.cwd) st0
      if isSubstr tbMarker result.stderr then
        (Except.error (RunError.failure
          ("Error during Python script execution: ".data ++ result.stderr)), st2)
      else
        let final_json_output := pyStrip result.stdout
        if final_json_output.isEmpty then
          if result.stderr.isEmpty then
            (Except.error (RunError.failure
              "The generated script did not print any output.".data), st2)
          else
            (Except.error (RunError.failure
              ("The generated script did not print any output. Warnings: ".data ++ result.stderr)), st2)
        else
          match jsonParse final_json_output with
          | some _ => (Except.ok final_json_output, st2)
          | none => (Except.error (RunError.jsonFailure final_json_output), st2)
  (r, { st1 with cwd := original_dir })

/-! ## `handle_analysis_request` (`app.py`, lines 25–74)

The filesystem is modelled as a list of (path, content) entries; a directory
is an entry with empty content.  `request.files` is modelled as the list of
(part name, content) pairs that `request.files.items()` yields. -/

/-- Filesystem model: existing paths with their contents. -/
abbrev FS := List (Str × Str)

/-- `os.path.join` for the two-component joins the handler performs. -/
def pathJoin (a b : Str) : Str := a ++ '/' :: b

/-- `os.path.basename`: the part after the last `/`. -/
def basename (p : Str) : Str :=
  (p.reverse.takeWhile (fun c => c != '/')).reverse

/-- Is `p` the directory `d` itself or a path under it? -/
def isUnder (d p : Str) : Bool :=
  p == d || (d ++ '/' :: []).isPrefixOf p

/-- `os.path.exists`. -/
def existsFS (fs : FS) (p : Str) : Bool := fs.any (fun e => e.1 == p)

/-- `shutil.rmtree`: remove the directory and everything under it. -/
def rmtreeFS (fs : FS) (d : Str) : FS := fs.filter (fun e => !(isUnder d e.1))

/-- The content a path holds after a sequence of writes: the last write wins. -/
def lookupLast (saved : List (Str × Str)) (k : Str) : Option Str :=
  ((saved.filter (fun e => e.1 == k)).getLast?).map (fun e => e.2)

/-- The required question-file part name. -/
def qtxt : Str := "questions.txt".data

/-- An HTTP response: status code and serialized body. -/
structure HttpResponse where
  status : Nat
  body : Str

/-- `jsonify({"error": e})`. -/
def errBody1 (e : Str) : Str :=
  flaskJsonify (.obj (.cons "error".data (.str e) .nil))

/-- `jsonify({"error": e, "details": d})`. -/
def errBody2 (e d : Str) : Str :=
  flaskJsonify (.obj (.cons "error".data (.str e) (.cons "details".data (.str d) .nil)))

/-- Modelled from the library: the message text of the `json.JSONDecodeError`
raised by `json.loads` on the given text.  Its exact wording comes from the
json library and is not asserted by any claim. -/
def jsonDecodeMessage (s : Str) : Str :=
  "Expecting value: ".data ++ s

/-- Modelled from the library: the message of the `OSError` were the question
file unreadable (unreachable: the part is saved before it is read). -/
def fileReadErrMsg : Str := "No such file or directory".data

/-- `"An internal server error occurred."` (line 69). -/
def internalMsg : Str := "An internal server error occurred.".data

/-- The 503 envelope text (line 62). -/
def overloadedMsg : Str :=
  "The analysis service API is currently overloaded or the request timed out.".data

/-- `handle_analysis_request` (lines 25–74): credential check, required-part
check, scratch-directory creation, file persistence, agent invocation,
response mapping, and the `finally` cleanup of the scratch directory. -/
def handle_analysis_request (apiKey : Option Str) (reqFiles : List (Str × Str))
    (request_id : Str) (model : Str → ModelCallResult)
    (scriptSem : Str → Str → ScriptBehavior) (fs : FS) (st : ProcState) :
    HttpResponse × FS × ProcState :=
  match apiKey with
  | none =>
    ({ status := 500, body := errBody1 "API key is not configured on the server.".data }, fs, st)
  | some _ =>
    if !(reqFiles.any (fun e => e.1 == qtxt)) then
      ({ status := 400, body := errBody1 "'questions.txt' is a required file part.".data }, fs, st)
    else
      let temp_dir := pathJoin "temp".data request_id
      let fs1 := fs ++ [(temp_dir, [])]
      let saved := reqFiles.map (fun e => (basename e.1, e.2))
      let fs2 := fs1 ++ saved.map (fun e => (pathJoin temp_dir e.1, e.2))
      let uploaded_files := (saved.filter (fun e => !(e.1 == qtxt))).map (fun e => e.1)
      let pr : HttpResponse × ProcState :=
        match lookupLast saved qtxt with
        | none =>
          ({ status := 500, body := errBody2 internalMsg fileReadErrMsg }, st)
        | some question_content =>
          let rs := agentRun temp_dir question_content uploaded_files model scriptSem st
          match rs.1 with
          | .ok result_json_str =>
            match jsonParse result_json_str with
            | some response_data => ({ status := 200, body := flaskJsonify response_data }, rs.2)
            | none =>
              ({ status := 500, body := errBody2 internalMsg (jsonDecodeMessage result_json_str) }, rs.2)
          | .error (.apiTimeout m) => ({ status := 503, body := errBody2 overloadedMsg m }, rs.2)
          | .error (.failure m) => ({ status := 500, body := errBody2 internalMsg m }, rs.2)
          | .error (.jsonFailure bad) =>
            ({ status := 500, body := errBody2 internalMsg (jsonDecodeMessage bad) }, rs.2)
      (pr.1, if existsFS fs2 temp_dir then rmtreeFS fs2 temp_dir else fs2, pr.2)

/-! ## Basic lemmas about the execution sandbox and `Agent.run` -/

/-- The captured result depends only on the script behaviour (the redirected
buffers start empty). -/
theorem exec_result_eq (beh : ScriptBehavior) (st : ProcState) :
    (execute_python_code beh st).1 = execResultOf beh := by
  cases h : beh.raises <;>
    simp [execute_python_code, execResultOf, StreamV.write, StreamV.getvalue, h]

/-- `execute_python_code` restores both standard streams. -/
theorem exec_restores (beh : ScriptBehavior) (st : ProcState) :
    (execute_python_code beh st).2.stdout = st.stdout ∧
      (execute_python_code beh st).2.stderr = st.stderr ∧
      (execute_python_code beh st).2.cwd = st.cwd := by
  cases h : beh.raises <;> simp [execute_python_code, h]

/-- `execute_python_code` as a whole: the captured result, and the incoming
process state returned unchanged (streams restored, directory untouched). -/
theorem execute_python_code_eq (beh : ScriptBehavior) (st : ProcState) :
    execute_python_code beh st = (execResultOf beh, st) := by
  cases beh with
  | mk o e r => cases r <;> rfl

/-- The outcome of the `try` body of `Agent.run` once the model call has
returned a response with candidates, as a function of the execution result
(the straight-line validation of lines 110–125). -/
def runOutcome (er : ExecResult) : Except RunError Str :=
  if isSubstr tbMarker er.stderr then
    Except.error (RunError.failure ("Error during Python script execution: ".data ++ er.stderr))
  else
    let fin := pyStrip er.stdout
    if fin.isEmpty then
      if er.stderr.isEmpty then
        Except.error (RunError.failure "The generated script did not print any output.".data)
      else
        Except.error (RunError.failure
          ("The generated script did not print any output. Warnings: ".data ++ er.stderr))
    else
      match jsonParse fin with
      | some _ => Except.ok fin
      | none => Except.error (RunError.jsonFailure fin)

/-- `Agent.run` on a candidate-bearing response: the outcome is the validation
of the captured execution result of the extracted code (run with the scratch
directory as working directory), and the process state comes back unchanged. -/
theorem agentRun_ok_eq (w q : Str) (fl : List Str) (model : Str → ModelCallResult)
    (sem : Str → Str → ScriptBehavior) (st : ProcState) (text : Str)
    (hm : model (buildPrompt q fl) = .ok text) :
    agentRun w q fl model sem st =
      (runOutcome (execResultOf (sem (extractCode text) w)), st) := by
  unfold agentRun
  simp only [hm]
  rw [execute_python_code_eq]
  unfold runOutcome
  split
  · rfl
  · dsimp only
    split
    · split <;> rfl
    · split <;> rfl

/-- `Agent.run` on an upstream timeout/retry failure: the error is re-raised
distinctly and the process state comes back unchanged. -/
theorem agentRun_timeout_eq (w q : Str) (fl : List Str) (model : Str → ModelCallResult)
    (sem : Str → Str → ScriptBehavior) (st : ProcState) (m : Str)
    (hm : model (buildPrompt q fl) = .timeout m) :
    agentRun w q fl model sem st = (Except.error (RunError.apiTimeout m), st) := by
  unfold agentRun
  simp only [hm]

/-- `Agent.run` on a candidate-less (blocked) response. -/
theorem agentRun_blocked_eq (w q : Str) (fl : List Str) (model : Str → ModelCallResult)
    (sem : Str → Str → ScriptBehavior) (st : ProcState) (f : Str)
    (hm : model (buildPrompt q fl) = .blocked f) :
    agentRun w q fl model sem st =
      (Except.error (RunError.failure
        ("API call failed: The request was likely blocked. Feedback: ".data ++ f)), st) := by
  unfold agentRun
  simp only [hm]

/-! ## Substring lemmas -/

/-- A list is a prefix of itself followed by anything. -/
theorem isPrefixOf_append_self (p r : Str) : p.isPrefixOf (p ++ r) = true := by
  induction p with
  | nil => simp [List.isPrefixOf]
  | cons c t ih => simp [List.isPrefixOf, ih]

/-- A prefix is in particular a substring. -/
theorem isSubstr_of_isPrefixOf (p s : Str) (h : p.isPrefixOf s = true) :
    isSubstr p s = true := by
  cases s with
  | nil =>
    cases p with
    | nil => rfl
    | cons c t => simp [List.isPrefixOf] at h
  | cons c t => simp [isSubstr, h]

/-- Substring-ness is preserved by prepending text. -/
theorem isSubstr_append_left (p s t : Str) (h : isSubstr p t = true) :
    isSubstr p (s ++ t) = true := by
  induction s with
  | nil => simpa using h
  | cons c u ih => simp [isSubstr, ih]

/-! ## `str.strip()` lemmas -/

/-- Dropping leaves a list whose head falsifies the predicate untouched. -/
theorem dropWhile_eq_self_of_head (p : Char → Bool) (l : Str)
    (h : ∀ c, l.head? = some c → p c = false) : l.dropWhile p = l := by
  cases l with
  | nil => rfl
  | cons c t => simp [List.dropWhile, h c rfl]

/-- `strip` of a string whose first and last characters are not whitespace. -/
theorem pyStrip_eq_self (s : Str)
    (h1 : ∀ c, s.head? = some c → pyWs c = false)
    (h2 : ∀ c, s.getLast? = some c → pyWs c = false) : pyStrip s = s := by
  unfold pyStrip
  rw [dropWhile_eq_self_of_head pyWs s h1]
  rw [dropWhile_eq_self_of_head pyWs s.reverse (by simpa [List.head?_reverse] using h2)]
  exact List.reverse_reverse s

/-- Appending a trailing whitespace character does not change `strip`. -/
theorem pyStrip_append_ws (l : Str) (c : Char) (h : pyWs c = true) :
    pyStrip (l ++ [c]) = pyStrip l := by
  unfold pyStrip
  rw [List.dropWhile_append]
  cases hl : (l.dropWhile pyWs).isEmpty with
  | true => simp [List.dropWhile, h, List.isEmpty_iff.mp hl]
  | false =>
    simp only [Bool.false_eq_true, if_false]
    rw [List.reverse_append]
    simp [List.dropWhile, h]


/-- The process state always comes back from `Agent.run` exactly as it went in
(streams restored by `execute_python_code`, directory restored by the
`finally`). -/
theorem agentRun_state (w q : Str) (fl : List Str) (model : Str → ModelCallResult)
    (sem : Str → Str → ScriptBehavior) (st : ProcState) :
    (agentRun w q fl model sem st).2 = st := by
  cases hm : model (buildPrompt q fl) with
  | ok t => rw [agentRun_ok_eq w q fl model sem st t hm]
  | blocked f => rw [agentRun_blocked_eq w q fl model sem st f hm]
  | timeout m => rw [agentRun_timeout_eq w q fl model sem st m hm]

/-! ## Agent-level claims -/

/-- C10: for every call to `execute_python_code`, the process-global
`sys.stdout` and `sys.stderr` are restored to their values from before the
call (whether or not the executed code raises), and the returned dictionary
holds exactly the two string fields `stdout` and `stderr` containing
everything the script wrote to the redirected streams — plus, on an exception,
the formatted traceback appended — up to the point of return or failure. -/
theorem exec_restores_streams_and_captures (beh : ScriptBehavior) (st : ProcState) :
    (execute_python_code beh st).2.stdout = st.stdout ∧
      (execute_python_code beh st).2.stderr = st.stderr ∧
      (execute_python_code beh st).1.stdout = beh.outText ∧
      (execute_python_code beh st).1.stderr =
        (match beh.raises with
         | some e => beh.errText ++ formatExc e
         | none => beh.errText) := by
  rw [execute_python_code_eq]
  exact ⟨rfl, rfl, rfl, rfl⟩

/-- The formatted traceback appended to any prior stderr text contains the
`Traceback` marker substring. -/
theorem tbMarker_in_formatExc (et e : Str) :
    isSubstr tbMarker (et ++ formatExc e) = true := by
  apply isSubstr_append_left
  have h2 : formatExc e = tbMarker ++ (" (most recent call last):\n".data ++ e) := by
    unfold formatExc tbMarker
    rw [← List.append_assoc]
    norm_num
  rw [h2]
  exact isSubstr_of_isPrefixOf _ _ (isPrefixOf_append_self _ _)

/-- C8 counterexample: "execute_python_code never propagates an exception
raised by the executed code" fails for a script that raises `SystemExit`:
`SystemExit` is a `BaseException` but not an `Exception`, so the
`except Exception` clause at `agent.py` line 32 does not match it and it
propagates out of `execute_python_code` — the function never returns its
dictionary for this script. -/
theorem exec_base_exception_counterexample :
    (execute_python_code_b
        { outText := [], errText := [], raises := some (.baseExc "SystemExit".data) }
        { cwd := "/app".data, stdout := .handle 1, stderr := .handle 2 }).1 =
      Except.error "SystemExit".data := rfl

/-- C8 (amended): `execute_python_code` restores the original standard streams
on every path, and catches exactly the raised exceptions that are instances of
`Exception`: for those it returns normally with the captured stdout and with
the full formatted traceback (containing the `Traceback` marker) appended to
the captured stderr, while a raised `BaseException` that is not an
`Exception` — such as `SystemExit` — is not caught and propagates out of the
function. -/
theorem exec_catches_Exception_instances_only (beh : ScriptBehaviorB) (st : ProcState) :
    (execute_python_code_b beh st).2.stdout = st.stdout ∧
      (execute_python_code_b beh st).2.stderr = st.stderr ∧
      (∀ e, beh.raises = some (.exc e) →
        (execute_python_code_b beh st).1 =
            Except.ok { stdout := beh.outText, stderr := beh.errText ++ formatExc e } ∧
          isSubstr tbMarker (beh.errText ++ formatExc e) = true) ∧
      (∀ b, beh.raises = some (.baseExc b) →
        (execute_python_code_b beh st).1 = Except.error b) := by
  obtain ⟨o, et, r⟩ := beh
  cases r with
  | none =>
      refine ⟨rfl, rfl, ?_, ?_⟩
      · intro e h; exact absurd h (by simp)
      · intro b h; exact absurd h (by simp)
  | some pe =>
      cases pe with
      | exc e0 =>
          refine ⟨rfl, rfl, ?_, ?_⟩
          · intro e h
            simp only [Option.some.injEq, PyExc.exc.injEq] at h
            subst h
            exact ⟨rfl, tbMarker_in_formatExc et e0⟩
          · intro b h; exact absurd h (by simp)
      | baseExc b0 =>
          refine ⟨rfl, rfl, ?_, ?_⟩
          · intro e h; exact absurd h (by simp)
          · intro b h
            simp only [Option.some.injEq, PyExc.baseExc.injEq] at h
            subst h
            rfl

/-- C8 witness: a concrete `ZeroDivisionError` (an instance of `Exception`)
is caught, with the traceback appended to the captured stderr, while a
concrete `SystemExit` (a `BaseException` only) propagates. -/
theorem exec_catches_Exception_instances_only_witness :
    (execute_python_code_b
        { outText := "x".data, errText := [],
          raises := some (.exc "ZeroDivisionError: division by zero\n".data) }
        { cwd := "/app".data, stdout := .handle 1, stderr := .handle 2 }).1 =
        Except.ok
          { stdout := "x".data
            stderr := [] ++ formatExc "ZeroDivisionError: division by zero\n".data } ∧
      (execute_python_code_b
        { outText := "ignored".data, errText := [],
          raises := some (.baseExc "KeyboardInterrupt".data) }
        { cwd := "/app".data, stdout := .handle 1, stderr := .handle 2 }).1 =
        Except.error "KeyboardInterrupt".data :=
  ⟨((exec_catches_Exception_instances_only
      { outText := "x".data, errText := [],
        raises := some (.exc "ZeroDivisionError: division by zero\n".data) }
      { cwd := "/app".data, stdout := .handle 1, stderr := .handle 2 }).2.2.1
        "ZeroDivisionError: division by zero\n".data rfl).1,
    (exec_catches_Exception_instances_only
      { outText := "ignored".data, errText := [],
        raises := some (.baseExc "KeyboardInterrupt".data) }
      { cwd := "/app".data, stdout := .handle 1, stderr := .handle 2 }).2.2.2
        "KeyboardInterrupt".data rfl⟩

/-- C9: `Agent.run` switches the working directory to the scratch directory
for the duration of the call — the generated script's behaviour is only ever
consulted with the scratch directory as the current directory — and restores
the original working directory on every exit path (success, upstream timeout,
or any other exception). -/
theorem run_cwd_switch_and_restore (w q : Str) (fl : List Str)
    (model : Str → ModelCallResult) (sem : Str → Str → ScriptBehavior) (st : ProcState) :
    (agentRun w q fl model sem st).2.cwd = st.cwd ∧
      agentRun w q fl model sem st = agentRun w q fl model (fun c _ => sem c w) st := by
  refine ⟨by rw [agentRun_state], ?_⟩
  cases hm : model (buildPrompt q fl) with
  | ok t =>
    rw [agentRun_ok_eq w q fl model sem st t hm,
      agentRun_ok_eq w q fl model (fun c _ => sem c w) st t hm]
  | blocked f =>
    rw [agentRun_blocked_eq w q fl model sem st f hm,
      agentRun_blocked_eq w q fl model (fun c _ => sem c w) st f hm]
  | timeout m =>
    rw [agentRun_timeout_eq w q fl model sem st m hm,
      agentRun_timeout_eq w q fl model (fun c _ => sem c w) st m hm]

/-- C3: if the captured stderr of the execution contains the `Traceback`
marker, `Agent.run` fails with the stderr content as detail — for any captured
stdout whatsoever (the stderr check precedes every stdout check). -/
theorem run_stderr_traceback_priority (w q : Str) (fl : List Str)
    (model : Str → ModelCallResult) (sem : Str → Str → ScriptBehavior) (st : ProcState)
    (text : Str) (er : ExecResult)
    (hm : model (buildPrompt q fl) = .ok text)
    (her : execResultOf (sem (extractCode text) w) = er)
    (htb : isSubstr tbMarker er.stderr = true) :
    (agentRun w q fl model sem st).1 =
      Except.error (RunError.failure
        ("Error during Python script execution: ".data ++ er.stderr)) := by
  rw [agentRun_ok_eq w q fl model sem st text hm, her]
  unfold runOutcome
  rw [if_pos htb]

/-- A concrete process state used by the witnesses. -/
def witState : ProcState := { cwd := "/app".data, stdout := .handle 1, stderr := .handle 2 }

/-- A concrete model response used by the witnesses. -/
def witResp : Str := "```python\nz=1\n```".data

/-- C3 witness: stderr carrying a traceback while stdout even holds valid
JSON. -/
theorem run_stderr_traceback_priority_witness :
    (agentRun "temp/u1".data "q".data [] (fun _ => ModelCallResult.ok witResp)
        (fun _ _ => { outText := "[1, 2]\n".data, errText := "Traceback: boom\n".data, raises := none })
        witState).1 =
      Except.error (RunError.failure
        ("Error during Python script execution: ".data ++ "Traceback: boom\n".data)) :=
  run_stderr_traceback_priority "temp/u1".data "q".data []
    (fun _ => ModelCallResult.ok witResp)
    (fun _ _ => { outText := "[1, 2]\n".data, errText := "Traceback: boom\n".data, raises := none })
    witState witResp
    { stdout := "[1, 2]\n".data, stderr := "Traceback: boom\n".data }
    rfl rfl (by decide)

/-- C7: when the captured stderr has no `Traceback` marker and the stripped
stdout is empty, `Agent.run` fails; the detail carries the captured stderr
when it is non-empty and is the generic no-output message otherwise. -/
theorem run_no_output_failure (w q : Str) (fl : List Str)
    (model : Str → ModelCallResult) (sem : Str → Str → ScriptBehavior) (st : ProcState)
    (text : Str) (er : ExecResult)
    (hm : model (buildPrompt q fl) = .ok text)
    (her : execResultOf (sem (extractCode text) w) = er)
    (htb : isSubstr tbMarker er.stderr = false)
    (hout : pyStrip er.stdout = []) :
    (agentRun w q fl model sem st).1 =
      Except.error (RunError.failure
        (if er.stderr.isEmpty then "The generated script did not print any output.".data
         else "The generated script did not print any output. Warnings: ".data ++ er.stderr)) := by
  rw [agentRun_ok_eq w q fl model sem st text hm, her]
  unfold runOutcome
  rw [if_neg (by simp [htb])]
  dsimp only
  rw [hout]
  cases he : er.stderr.isEmpty <;> simp [he]

/-- C7 witness: a script printing nothing, with a deprecation warning on
stderr. -/
theorem run_no_output_failure_witness :
    (agentRun "temp/u1".data "q".data [] (fun _ => ModelCallResult.ok witResp)
        (fun _ _ => { outText := " \n".data, errText := "DeprecationWarning: old\n".data, raises := none })
        witState).1 =
      Except.error (RunError.failure
        (if ("DeprecationWarning: old\n".data : Str).isEmpty
         then "The generated script did not print any output.".data
         else "The generated script did not print any output. Warnings: ".data ++
           "DeprecationWarning: old\n".data)) :=
  run_no_output_failure "temp/u1".data "q".data []
    (fun _ => ModelCallResult.ok witResp)
    (fun _ _ => { outText := " \n".data, errText := "DeprecationWarning: old\n".data, raises := none })
    witState witResp
    { stdout := " \n".data, stderr := "DeprecationWarning: old\n".data }
    rfl rfl (by decide) (by decide)

/-- C1 counterexample: the captured stdout has two printed lines and the last
one (`[1]`) is valid JSON, yet `Agent.run` fails — `json.loads` is applied to
the whole stripped stdout, so the earlier line is not ignored. -/
theorem run_last_line_counterexample :
    (jsonParse "[1]".data).isSome = true ∧
      (agentRun "temp/u1".data "q".data []
          (fun _ => ModelCallResult.ok "```python\nz=1\n```".data)
          (fun _ _ => { outText := "hello\n[1]\n".data, errText := [], raises := none })
          { cwd := "/app".data, stdout := .handle 1, stderr := .handle 2 }).1 =
        Except.error (RunError.jsonFailure "hello\n[1]".data) := by
  exact ⟨rfl, rfl⟩

/-- C1 (amended): for an execution whose captured stderr has no `Traceback`
marker and whose stripped stdout is non-empty, `Agent.run` succeeds exactly
when the *entire* stripped stdout parses as JSON, and then returns that whole
text; otherwise it raises the JSON decode failure on that whole text.  The
last printed line plays no distinguished role. -/
theorem run_whole_stdout_validation (w q : Str) (fl : List Str)
    (model : Str → ModelCallResult) (sem : Str → Str → ScriptBehavior) (st : ProcState)
    (text : Str) (er : ExecResult)
    (hm : model (buildPrompt q fl) = .ok text)
    (her : execResultOf (sem (extractCode text) w) = er)
    (htb : isSubstr tbMarker er.stderr = false)
    (hne : (pyStrip er.stdout).isEmpty = false) :
    (agentRun w q fl model sem st).1 =
      (match jsonParse (pyStrip er.stdout) with
       | some _ => Except.ok (pyStrip er.stdout)
       | none => Except.error (RunError.jsonFailure (pyStrip er.stdout))) := by
  rw [agentRun_ok_eq w q fl model sem st text hm, her]
  unfold runOutcome
  rw [if_neg (by simp [htb])]
  dsimp only
  rw [hne]
  simp

/-- C1 (amended) witness: a single JSON line round-trips through the
validation. -/
theorem run_whole_stdout_validation_witness :
    (agentRun "temp/u1".data "q".data [] (fun _ => ModelCallResult.ok witResp)
        (fun _ _ => { outText := " [1, 2] \n".data, errText := [], raises := none })
        witState).1 =
      (match jsonParse (pyStrip (" [1, 2] \n".data : Str)) with
       | some _ => Except.ok (pyStrip (" [1, 2] \n".data : Str))
       | none => Except.error (RunError.jsonFailure (pyStrip (" [1, 2] \n".data : Str)))) :=
  run_whole_stdout_validation "temp/u1".data "q".data []
    (fun _ => ModelCallResult.ok witResp)
    (fun _ _ => { outText := " [1, 2] \n".data, errText := [], raises := none })
    witState witResp
    { stdout := " [1, 2] \n".data, stderr := [] }
    rfl rfl (by decide) (by decide)

/-! ## Extraction lemmas (claim C2) -/

/-- A fence can only be a prefix of a list that starts with a backtick. -/
theorem fencePrefix_false_of_head (c : Char) (t : Str) (hc : c ≠ '`') :
    fence.isPrefixOf (c :: t) = false := by
  have h : ('`' == c) = false := beq_eq_false_iff_ne.mpr (fun h => hc h.symm)
  simp [fence, List.isPrefixOf, h]

/-- The regex search skips any prefix without backticks. -/
theorem searchFenced_append_nb (pre rest : Str) (hpre : ∀ c ∈ pre, c ≠ '`') :
    searchFenced (pre ++ rest) = searchFenced rest := by
  induction pre with
  | nil => rfl
  | cons c t ih =>
    rw [List.cons_append]
    show searchFenced (c :: (t ++ rest)) = _
    conv_lhs => rw [searchFenced]
    rw [fencePrefix_false_of_head c _ (hpre c (List.mem_cons_self c t))]
    simp only [Bool.false_eq_true, if_false]
    exact ih (fun d hd => hpre d (List.mem_cons_of_mem c hd))

/-- A response without backticks has no fenced block: search fails. -/
theorem searchFenced_nb (s : Str) (h : ∀ c ∈ s, c ≠ '`') : searchFenced s = none := by
  have h2 := searchFenced_append_nb s [] h
  rw [List.append_nil] at h2
  exact h2

/-- No fence occurrence starts inside a backtick-free block. -/
theorem fenceAtB_append_lower (a y : Str) (ha : ∀ c ∈ a, c ≠ '`') (j : Nat)
    (hj : j < a.length) : fenceAtB (a ++ y) j = false := by
  unfold fenceAtB
  rw [List.drop_append_eq_append_drop]
  cases hd : a.drop j with
  | nil =>
    exfalso
    have := List.drop_eq_nil_iff.mp hd
    omega
  | cons c u =>
    rw [List.cons_append]
    refine fencePrefix_false_of_head c _ (ha c ?_)
    exact List.drop_subset j a (hd ▸ List.mem_cons_self c u)

/-- Fence occurrences past a block are occurrences in the tail. -/
theorem fenceAtB_append_shift (a y : Str) (j : Nat) (hj : a.length ≤ j) :
    fenceAtB (a ++ y) j = fenceAtB y (j - a.length) := by
  unfold fenceAtB
  rw [List.drop_append_eq_append_drop, List.drop_eq_nil_of_le hj, List.nil_append]

/-- In `fence ++ post` with a backtick-free `post`, the only fence occurrence
is at offset `0`. -/
theorem fenceAtB_fence_post (post : Str) (hpost : ∀ c ∈ post, c ≠ '`') :
    ∀ j, fenceAtB (fence ++ post) j = (j == 0)
  | 0 => by
    unfold fenceAtB
    simp [isPrefixOf_append_self]
  | 1 => by
    show fence.isPrefixOf (List.drop 1 ('`' :: '`' :: '`' :: post)) = (1 == 0)
    cases post with
    | nil => decide
    | cons c t =>
      have h : ('`' == c) = false :=
        beq_eq_false_iff_ne.mpr (fun h => hpost c (List.mem_cons_self c t) h.symm)
      simp [fence, List.isPrefixOf, h]
  | 2 => by
    show fence.isPrefixOf (List.drop 2 ('`' :: '`' :: '`' :: post)) = (2 == 0)
    cases post with
    | nil => decide
    | cons c t =>
      have h : ('`' == c) = false :=
        beq_eq_false_iff_ne.mpr (fun h => hpost c (List.mem_cons_self c t) h.symm)
      simp [fence, List.isPrefixOf, h]
  | (j + 3) => by
    show fence.isPrefixOf (List.drop (j + 3) ('`' :: '`' :: '`' :: post)) = (j + 3 == 0)
    have hdrop : List.drop (j + 3) ('`' :: '`' :: '`' :: post) = List.drop j post := rfl
    rw [hdrop]
    cases hd : post.drop j with
    | nil => simp [fence, List.isPrefixOf]
    | cons c u =>
      rw [fencePrefix_false_of_head c u (hpost c (List.drop_subset j post (hd ▸ List.mem_cons_self c u)))]
      simp

/-- Fence occurrences in `a ++ fence ++ post` with backtick-free `a`, `post`:
exactly at offset `a.length`. -/
theorem fenceAtB_block (a post : Str) (ha : ∀ c ∈ a, c ≠ '`')
    (hpost : ∀ c ∈ post, c ≠ '`') (j : Nat) :
    fenceAtB (a ++ (fence ++ post)) j = (j == a.length) := by
  rcases Nat.lt_or_ge j a.length with hj | hj
  · rw [fenceAtB_append_lower a _ ha j hj]
    have : j ≠ a.length := by omega
    exact (beq_eq_false_iff_ne.mpr this).symm
  · rw [fenceAtB_append_shift a _ j hj, fenceAtB_fence_post post hpost]
    by_cases h : j = a.length
    · subst h
      simp
    · have h1 : j - a.length ≠ 0 := by omega
      rw [beq_eq_false_iff_ne.mpr h1, beq_eq_false_iff_ne.mpr h]

/-- Filtering `range` for one hit. -/
theorem range_filter_beq (n J : Nat) (h : J < n) :
    (List.range n).filter (fun j => j == J) = [J] := by
  induction n with
  | zero => omega
  | succ m ih =>
    rw [List.range_succ, List.filter_append]
    rcases Nat.lt_or_ge J m with hm | hm
    · rw [ih hm]
      have hne : (m == J) = false := beq_eq_false_iff_ne.mpr (by omega)
      simp [hne]
    · have hJ : J = m := by omega
      subst hJ
      have h0 : (List.range J).filter (fun j => j == J) = [] := by
        refine List.filter_eq_nil_iff.mpr (fun j hj => ?_)
        have := List.mem_range.mp hj
        simp only [Bool.not_eq_true]
        exact beq_eq_false_iff_ne.mpr (by omega)
      rw [h0]
      simp

/-- The last fence of `a ++ fence ++ post` sits at offset `a.length`. -/
theorem lastFencePos_block (a post : Str) (ha : ∀ c ∈ a, c ≠ '`')
    (hpost : ∀ c ∈ post, c ≠ '`') :
    lastFencePos (a ++ (fence ++ post)) = some a.length := by
  unfold lastFencePos
  rw [List.filter_congr (fun j _ => fenceAtB_block a post ha hpost j)]
  rw [range_filter_beq _ a.length (by simp [fence])]
  rfl

/-- The regex group 2 for a single well-formed block: everything between the
`python` tag's newline and the closing fence. -/
theorem matchAfterFence_spec (code post : Str) (hcode : ∀ c ∈ code, c ≠ '`')
    (hpost : ∀ c ∈ post, c ≠ '`') (hne : code ≠ []) (hc0 : pyWs code.headI = false) :
    matchAfterFence (pythonTag ++ '\n' :: (code ++ '\n' :: (fence ++ post))) =
      some (code ++ ['\n']) := by
  have hX : pythonTag ++ '\n' :: (code ++ '\n' :: (fence ++ post)) =
      (pythonTag ++ '\n' :: (code ++ ['\n'])) ++ (fence ++ post) := by
    simp [List.append_assoc]
  set a : Str := pythonTag ++ '\n' :: (code ++ ['\n']) with ha
  have hNBa : ∀ c ∈ a, c ≠ '`' := by
    intro c hc heq
    subst heq
    rw [ha] at hc
    rcases List.mem_append.mp hc with h | h
    · exact absurd h (by decide)
    · rcases List.mem_cons.mp h with h1 | h1
      · exact absurd h1 (by decide)
      · rcases List.mem_append.mp h1 with h2 | h2
        · exact hcode _ h2 rfl
        · exact absurd h2 (by decide)
  have hlen : a.length = code.length + 8 := by
    rw [ha]
    simp [pythonTag]
    try omega
  rw [hX]
  unfold matchAfterFence
  rw [lastFencePos_block a post hNBa hpost]
  have hpt : pythonTag.isPrefixOf (a ++ (fence ++ post)) = true := by
    rw [ha, List.append_assoc]
    exact isPrefixOf_append_self _ _
  have h7 : decide (7 ≤ a.length) = true := decide_eq_true (by omega)
  dsimp only
  rw [hpt, h7]
  simp only [Bool.and_self, if_true]
  have hdrop6 : (a ++ (fence ++ post)).drop 6 =
      '\n' :: ((code ++ ['\n']) ++ (fence ++ post)) := by
    rw [ha, List.append_assoc, List.drop_append_eq_append_drop]
    simp [pythonTag]
  have hw : (((a ++ (fence ++ post)).drop 6).takeWhile pyWs).length = 1 := by
    rw [hdrop6, List.takeWhile_cons]
    rw [show pyWs '\n' = true from rfl]
    simp only [if_true]
    rw [List.append_assoc]
    cases code with
    | nil => exact absurd rfl hne
    | cons c0 t =>
      have hc : pyWs c0 = false := by simpa [List.headI] using hc0
      rw [List.cons_append, List.takeWhile_cons, hc]
      simp
  rw [hw, hlen]
  have hk : min 1 (code.length + 8 - 7) = 1 := by omega
  rw [hk]
  have hdrop7 : (a ++ (fence ++ post)).drop (6 + 1) =
      (code ++ ['\n']) ++ (fence ++ post) := by
    rw [ha, List.append_assoc, List.drop_append_eq_append_drop]
    simp [pythonTag]
  rw [hdrop7]
  have hlen2 : code.length + 8 - (6 + 1) = (code ++ ['\n']).length := by
    simp
  rw [hlen2, List.take_left]

/-- The regex search on a response with one well-formed fenced block. -/
theorem searchFenced_spec (pre code post : Str)
    (hpre : ∀ c ∈ pre, c ≠ '`') (hcode : ∀ c ∈ code, c ≠ '`')
    (hpost : ∀ c ∈ post, c ≠ '`') (hne : code ≠ []) (hc0 : pyWs code.headI = false) :
    searchFenced (pre ++ (fence ++ (pythonTag ++ '\n' :: (code ++ '\n' :: (fence ++ post))))) =
      some (code ++ ['\n']) := by
  rw [searchFenced_append_nb pre _ hpre]
  set X : Str := pythonTag ++ '\n' :: (code ++ '\n' :: (fence ++ post)) with hXdef
  have hcons : fence ++ X = '`' :: ('`' :: '`' :: X) := rfl
  rw [hcons]
  conv_lhs => rw [searchFenced]
  have hp : fence.isPrefixOf ('`' :: ('`' :: '`' :: X)) = true := isPrefixOf_append_self fence X
  rw [hp]
  simp only [if_true]
  have hdrop : ('`' :: ('`' :: '`' :: X)).drop 3 = X := rfl
  rw [hdrop, hXdef]
  rw [matchAfterFence_spec code post hcode hpost hne hc0]

/-- C2 counterexample: (i) with two fenced blocks in the response the greedy
regex takes everything up to the *last* closing fence, not the first block's
inner text; (ii) with no fenced block the response is stripped, not used
verbatim. -/
theorem extractCode_counterexample :
    extractCode "p ```python\na=1\n``` q ```json\nb=2\n``` r".data ≠ "a=1".data ∧
      extractCode "  x = 1  ".data ≠ "  x = 1  ".data := by
  constructor <;> decide

/-- C2 (amended): for a response with exactly one fenced block — backtick-free
prose around a backtick-free script whose first character is not whitespace —
the executed script is the block's inner text stripped of surrounding
whitespace; and a response with no fence at all (no backticks) is used
stripped, not verbatim. -/
theorem extractCode_single_block (pre code post : Str)
    (hpre : ∀ c ∈ pre, c ≠ '`') (hcode : ∀ c ∈ code, c ≠ '`')
    (hpost : ∀ c ∈ post, c ≠ '`') (hne : code ≠ []) (hc0 : pyWs code.headI = false) :
    extractCode (pre ++ "```python\n".data ++ code ++ "\n```".data ++ post) = pyStrip code ∧
      (∀ s : Str, (∀ c ∈ s, c ≠ '`') → extractCode s = pyStrip s) := by
  constructor
  · have hshape : pre ++ "```python\n".data ++ code ++ "\n```".data ++ post =
        pre ++ (fence ++ (pythonTag ++ '\n' :: (code ++ '\n' :: (fence ++ post)))) := by
      have h1 : "```python\n".data = fence ++ (pythonTag ++ ['\n']) := rfl
      have h2 : "\n```".data = '\n' :: fence := rfl
      rw [h1, h2]
      simp [List.append_assoc]
    rw [hshape]
    unfold extractCode
    rw [searchFenced_spec pre code post hpre hcode hpost hne hc0]
    exact pyStrip_append_ws code '\n' rfl
  · intro s hs
    unfold extractCode
    rw [searchFenced_nb s hs]

/-- C2 (amended) witness: a single-block response and a fence-free response. -/
theorem extractCode_single_block_witness :
    extractCode ("Sure: ".data ++ "```python\n".data ++ "x=1".data ++ "\n```".data ++ " ok".data) =
        pyStrip "x=1".data ∧
      extractCode "  a = 2  ".data = pyStrip "  a = 2  ".data :=
  ⟨(extractCode_single_block "Sure: ".data "x=1".data " ok".data
      (by decide) (by decide) (by decide) (by decide) (by decide)).1,
    (extractCode_single_block "Sure: ".data "x=1".data " ok".data
      (by decide) (by decide) (by decide) (by decide) (by decide)).2
      "  a = 2  ".data (by decide)⟩

/-! ## Handler-level claims C4 and C5 -/

/-- C4: with the API key configured, a request without a `questions.txt` part
gets a 400 with the fixed JSON error envelope, the filesystem is untouched
(the check precedes the scratch-directory creation), and in particular no
scratch directory for the request's id exists afterwards if none existed
before. -/
theorem handler_missing_questions (key : Str) (reqFiles : List (Str × Str)) (rid : Str)
    (model : Str → ModelCallResult) (sem : Str → Str → ScriptBehavior) (fs : FS)
    (st : ProcState)
    (hq : reqFiles.any (fun e => e.1 == qtxt) = false) :
    (handle_analysis_request (some key) reqFiles rid model sem fs st).1.status = 400 ∧
      (handle_analysis_request (some key) reqFiles rid model sem fs st).1.body =
        errBody1 "'questions.txt' is a required file part.".data ∧
      (handle_analysis_request (some key) reqFiles rid model sem fs st).2.1 = fs ∧
      (existsFS fs (pathJoin "temp".data rid) = false →
        existsFS (handle_analysis_request (some key) reqFiles rid model sem fs st).2.1
          (pathJoin "temp".data rid) = false) := by
  unfold handle_analysis_request
  simp only [hq, Bool.not_false, if_true]
  exact ⟨trivial, trivial, trivial, fun h => h⟩

/-- C4 witness. -/
theorem handler_missing_questions_witness :
    (handle_analysis_request (some "K".data) [("data.csv".data, "1,2".data)] "u1".data
        (fun _ => ModelCallResult.ok witResp)
        (fun _ _ => { outText := "[1]\n".data, errText := [], raises := none })
        [("temp".data, [])] witState).1.status = 400 ∧
      (handle_analysis_request (some "K".data) [("data.csv".data, "1,2".data)] "u1".data
          (fun _ => ModelCallResult.ok witResp)
          (fun _ _ => { outText := "[1]\n".data, errText := [], raises := none })
          [("temp".data, [])] witState).1.body =
        errBody1 "'questions.txt' is a required file part.".data ∧
      (handle_analysis_request (some "K".data) [("data.csv".data, "1,2".data)] "u1".data
          (fun _ => ModelCallResult.ok witResp)
          (fun _ _ => { outText := "[1]\n".data, errText := [], raises := none })
          [("temp".data, [])] witState).2.1 = [("temp".data, [])] ∧
      (existsFS [("temp".data, [])] (pathJoin "temp".data "u1".data) = false →
        existsFS (handle_analysis_request (some "K".data) [("data.csv".data, "1,2".data)] "u1".data
            (fun _ => ModelCallResult.ok witResp)
            (fun _ _ => { outText := "[1]\n".data, errText := [], raises := none })
            [("temp".data, [])] witState).2.1 (pathJoin "temp".data "u1".data) = false) :=
  handler_missing_questions "K".data [("data.csv".data, "1,2".data)] "u1".data
    (fun _ => ModelCallResult.ok witResp)
    (fun _ _ => { outText := "[1]\n".data, errText := [], raises := none })
    [("temp".data, [])] witState (by decide)

/-- The `finally` cleanup: once the scratch directory exists, nothing at or
under it survives. -/
theorem cleanup_removes (fs2 : FS) (td : Str) (h : existsFS fs2 td = true) :
    ((if existsFS fs2 td then rmtreeFS fs2 td else fs2).all
      (fun e => !(isUnder td e.1))) = true := by
  rw [if_pos h]
  refine List.all_eq_true.mpr (fun e he => ?_)
  exact (List.mem_filter.mp he).2

/-- C5: for every request that reaches scratch-directory creation (key
configured, question part present), after the handler returns — on the
success path, the upstream-timeout path and every other error path alike —
no filesystem entry at or under the request's scratch directory remains: the
`finally` block removes the directory and everything under it before the
response is produced. -/
theorem handler_cleanup (key : Str) (reqFiles : List (Str × Str)) (rid : Str)
    (model : Str → ModelCallResult) (sem : Str → Str → ScriptBehavior) (fs : FS)
    (st : ProcState)
    (hq : reqFiles.any (fun e => e.1 == qtxt) = true) :
    ((handle_analysis_request (some key) reqFiles rid model sem fs st).2.1.all
      (fun e => !(isUnder (pathJoin "temp".data rid) e.1))) = true := by
  unfold handle_analysis_request
  simp only [hq, Bool.not_true, Bool.false_eq_true, if_false]
  apply cleanup_removes
  refine List.any_eq_true.mpr ⟨(pathJoin "temp".data rid, []), ?_, ?_⟩
  · simp [List.mem_append]
  · simp

/-- C5 witness: an upstream-timeout request; the pre-existing entry survives,
nothing under the scratch directory does. -/
theorem handler_cleanup_witness :
    ((handle_analysis_request (some "K".data) [(qtxt, "what?".data)] "u1".data
        (fun _ => ModelCallResult.timeout "busy".data)
        (fun _ _ => { outText := "[1]\n".data, errText := [], raises := none })
        [("keep".data, [])] witState).2.1.all
      (fun e => !(isUnder (pathJoin "temp".data "u1".data) e.1))) = true :=
  handler_cleanup "K".data [(qtxt, "what?".data)] "u1".data
    (fun _ => ModelCallResult.timeout "busy".data)
    (fun _ _ => { outText := "[1]\n".data, errText := [], raises := none })
    [("keep".data, [])] witState (by decide)

/-! ## Decimal round trip (for claim C6) -/

/-- Characters differ when their code points differ. -/
theorem char_ne_of_toNat_ne (a b : Char) (h : a.toNat ≠ b.toNat) : a ≠ b :=
  fun he => h (he ▸ rfl)

/-- Digit characters evaluate back to their value. -/
theorem digitChar_toNat (k : Nat) (h : k < 10) : (digitChar k).toNat = 48 + k := by
  interval_cases k <;> decide

/-- Digit characters are decimal digits. -/
theorem digitChar_isDigit (k : Nat) (h : k < 10) : (digitChar k).isDigit = true := by
  interval_cases k <;> decide

/-- Digit characters are not stripped as whitespace. -/
theorem digitChar_not_pyWs (k : Nat) (h : k < 10) : pyWs (digitChar k) = false := by
  interval_cases k <;> decide

/-- Positive digits are not `'0'`. -/
theorem digitChar_ne_zero (k : Nat) (h : k < 10) (h0 : k ≠ 0) : digitChar k ≠ '0' := by
  interval_cases k <;> first | omega | decide

/-- Structure of `natDigsAux`: non-empty, digit characters only, non-zero
leading digit for positive numbers, and value preserved. -/
theorem natDigsAux_spec (fuel n : Nat) (h : n < fuel) :
    natDigsAux fuel n ≠ [] ∧
      (∀ c ∈ natDigsAux fuel n, ∃ k, k < 10 ∧ c = digitChar k) ∧
      (∀ c, (natDigsAux fuel n).head? = some c →
        ∃ k, k < 10 ∧ c = digitChar k ∧ (1 ≤ n → k ≠ 0)) ∧
      digitsToNat (natDigsAux fuel n) = n := by
  induction fuel generalizing n with
  | zero => omega
  | succ m ih =>
    by_cases hn : n < 10
    · rw [natDigsAux, if_pos hn]
      refine ⟨by simp, ?_, ?_, ?_⟩
      · intro c hc
        rw [List.mem_singleton] at hc
        exact ⟨n, hn, hc⟩
      · intro c hc
        simp only [List.head?_cons, Option.some.injEq] at hc
        exact ⟨n, hn, hc.symm, fun _ => by omega⟩
      · simp [digitsToNat, digitChar_toNat n hn]
    · have hd : n / 10 < m := by omega
      obtain ⟨ihne, ihmem, ihhead, ihval⟩ := ih (n / 10) hd
      rw [natDigsAux, if_neg hn]
      refine ⟨by simp [ihne], ?_, ?_, ?_⟩
      · intro c hc
        rcases List.mem_append.mp hc with h1 | h1
        · exact ihmem c h1
        · rw [List.mem_singleton] at h1
          exact ⟨n % 10, by omega, h1⟩
      · intro c hc
        cases hl : natDigsAux m (n / 10) with
        | nil => exact absurd hl ihne
        | cons c0 t0 =>
          rw [hl, List.cons_append, List.head?_cons, Option.some.injEq] at hc
          subst hc
          obtain ⟨k, hk10, hkc, hk0⟩ := ihhead c0 (by rw [hl]; rfl)
          exact ⟨k, hk10, hkc, fun _ => hk0 (by omega)⟩
      · have hsplit : digitsToNat (natDigsAux m (n / 10) ++ [digitChar (n % 10)]) =
            10 * digitsToNat (natDigsAux m (n / 10)) + ((digitChar (n % 10)).toNat - 48) := by
          unfold digitsToNat
          rw [List.foldl_append]
          rfl
        rw [hsplit, ihval, digitChar_toNat (n % 10) (by omega)]
        omega

/-- Reading back the decimal rendering of `n`, with a non-digit delimiter
after it. -/
theorem parseNat_natDigs (n : Nat) (rest : Str)
    (hrest : ∀ c, rest.head? = some c → c.isDigit = false) :
    parseNat (natDigs n ++ rest) = some (n, rest) := by
  obtain ⟨hne, hmem, hhead, hval⟩ := natDigsAux_spec (n + 1) n (by omega)
  by_cases h0 : n = 0
  · subst h0
    show parseNat ('0' :: rest) = some (0, rest)
    rw [parseNat, if_pos rfl]
  · cases hl : natDigs n with
    | nil => exact absurd hl hne
    | cons c0 t0 =>
      unfold natDigs at hl
      obtain ⟨k, hk10, hkc, hk0⟩ := hhead c0 (by rw [hl]; rfl)
      have hc0 : c0 ≠ '0' := by
        rw [hkc]
        exact digitChar_ne_zero k hk10 (hk0 (by omega))
      have hdig : c0.isDigit = true := by
        rw [hkc]
        exact digitChar_isDigit k hk10
      rw [List.cons_append, parseNat, if_neg hc0, if_pos hdig]
      have halld : ∀ c ∈ c0 :: t0, c.isDigit = true := by
        intro c hc
        obtain ⟨k2, hk2, hck⟩ := hmem c (by rw [hl]; exact hc)
        rw [hck]
        exact digitChar_isDigit k2 hk2
      have hrtw : rest.takeWhile Char.isDigit = [] := by
        cases rest with
        | nil => rfl
        | cons r0 tr =>
          rw [List.takeWhile_cons, hrest r0 rfl]
          rfl
      have htake : ((c0 :: t0) ++ rest).takeWhile Char.isDigit = c0 :: t0 := by
        rw [List.takeWhile_append_of_pos halld, hrtw, List.append_nil]
      rw [List.cons_append] at htake
      dsimp only
      rw [htake]
      have hdrop : (c0 :: (t0 ++ rest)).drop (c0 :: t0).length = rest := by
        rw [← List.cons_append]
        exact List.drop_left (c0 :: t0) rest
      rw [hdrop]
      have : digitsToNat (c0 :: t0) = n := by
        rw [← hl]
        exact hval
      rw [this]

/-! ## String round trip under plain characters -/

/-- Unpack `plainChar`. -/
theorem plainChar_props (c : Char) (h : plainChar c = true) :
    32 ≤ c.toNat ∧ c.toNat ≤ 126 ∧ c ≠ quoteC ∧ c ≠ bslash := by
  unfold plainChar at h
  simp only [Bool.and_eq_true, bne_iff_ne, ne_eq, decide_eq_true_eq] at h
  exact ⟨h.1.1.1, h.1.1.2, h.1.2, h.2⟩

/-- Unpack `plainStr` over a cons. -/
theorem plainStr_cons (c : Char) (t : Str) (h : plainStr (c :: t) = true) :
    plainChar c = true ∧ plainStr t = true := by
  unfold plainStr at h ⊢
  simpa [List.all_cons] using h

/-- Plain characters pass through the `json.dumps` escaper untouched. -/
theorem escapeChar_plain (c : Char) (h : plainChar c = true) : escapeChar c = [c] := by
  obtain ⟨h1, h2, h3, h4⟩ := plainChar_props c h
  unfold escapeChar
  rw [if_neg h3, if_neg h4,
    if_neg (fun he => absurd h1 (by rw [he]; decide)),
    if_neg (fun he => absurd h1 (by rw [he]; decide)),
    if_neg (fun he => absurd h1 (by rw [he]; decide)),
    if_neg (fun he => absurd h1 (by rw [he]; decide)),
    if_neg (fun he => absurd h1 (by rw [he]; decide)),
    if_pos (by simp [h1, h2])]

/-- Plain strings are serialized verbatim. -/
theorem escapeStr_plain (s : Str) (h : plainStr s = true) : escapeStr s = s := by
  induction s with
  | nil => rfl
  | cons c t ih =>
    obtain ⟨hc, ht⟩ := plainStr_cons c t h
    show escapeChar c ++ escapeStr t = c :: t
    rw [escapeChar_plain c hc, ih ht]
    rfl

/-- Reading back a plain string body up to its closing quote. -/
theorem parseStrBody_plain (s r : Str) (h : plainStr s = true) :
    parseStrBody (s ++ quoteC :: r) = some (s, r) := by
  induction s with
  | nil =>
    show parseStrBody (quoteC :: r) = some ([], r)
    rw [parseStrBody.eq_def]
    dsimp only
    rw [if_pos rfl]
  | cons c t ih =>
    obtain ⟨hc, ht⟩ := plainStr_cons c t h
    obtain ⟨h1, h2, h3, h4⟩ := plainChar_props c hc
    rw [List.cons_append, parseStrBody.eq_def]
    dsimp only
    rw [if_neg h3, if_neg h4, if_neg (by omega), ih ht]

/-! ## Support lemmas for the parse/serialize round trip -/

mutual
/-- Fuel needed by `parseVal` to read back a serialized value. -/
def jfuelV : JsonVal → Nat
  | .null => 1
  | .bool _ => 1
  | .num _ => 1
  | .str _ => 1
  | .arr .nil => 1
  | .arr (.cons x tl) => 1 + jfuelA (.cons x tl)
  | .obj .nil => 1
  | .obj (.cons k v tl) => 1 + jfuelO (.cons k v tl)
termination_by structural v => v
/-- Fuel needed by `parseElems`. -/
def jfuelA : JsonArr → Nat
  | .nil => 0
  | .cons x tl => 1 + jfuelV x + jfuelA tl
termination_by structural a => a
/-- Fuel needed by `parseMembers`. -/
def jfuelO : JsonObj → Nat
  | .nil => 0
  | .cons _ v tl => 1 + jfuelV v + jfuelO tl
termination_by structural o => o
end

/-- Every value needs at least one unit of fuel. -/
theorem jfuelV_pos (X : JsonVal) : 1 ≤ jfuelV X := by
  cases X with
  | arr a => cases a <;> simp [jfuelV]
  | obj o => cases o <;> simp [jfuelV]
  | null => simp [jfuelV]
  | bool b => simp [jfuelV]
  | num n => simp [jfuelV]
  | str s => simp [jfuelV]

/-- `skipWs` does not move past a non-whitespace head. -/
theorem skipWs_cons_false (c : Char) (l : Str) (h : jsonWs c = false) :
    skipWs (c :: l) = c :: l := by
  unfold skipWs
  rw [List.dropWhile_cons, h]
  simp

/-- `skipWs` swallows a whitespace-only prefix. -/
theorem skipWs_append_ws (pre l : Str) (h : ∀ c ∈ pre, jsonWs c = true) :
    skipWs (pre ++ l) = skipWs l := by
  induction pre with
  | nil => rfl
  | cons c t ih =>
    rw [List.cons_append]
    show skipWs (c :: (t ++ l)) = skipWs l
    unfold skipWs
    rw [List.dropWhile_cons, h c (List.mem_cons_self c t)]
    simp only [if_true]
    exact ih (fun d hd => h d (List.mem_cons_of_mem c hd))

/-- Digits are not JSON whitespace. -/
theorem digitChar_not_jsonWs (k : Nat) (h : k < 10) : jsonWs (digitChar k) = false := by
  interval_cases k <;> decide

/-- A digit differs from any character outside the digit code-point range. -/
theorem digitChar_ne (k : Nat) (hk : k < 10) (b : Char)
    (hb : b.toNat < 48 ∨ 57 < b.toNat) : digitChar k ≠ b :=
  char_ne_of_toNat_ne _ _ (by rw [digitChar_toNat k hk]; omega)

/-- The serialized form of a value starts with a non-whitespace character
(neither JSON whitespace nor Python `strip` whitespace) that is neither `]`
nor `}`. -/
theorem dumpsV_head_spec (X : JsonVal) :
    ∃ c t, dumpsV X = c :: t ∧ jsonWs c = false ∧ c ≠ ']' ∧ c ≠ rbrace ∧
      pyWs c = false := by
  cases X with
  | null => exact ⟨'n', _, rfl, by decide, by decide, by decide, by decide⟩
  | bool b =>
    cases b with
    | true => exact ⟨'t', _, rfl, by decide, by decide, by decide, by decide⟩
    | false => exact ⟨'f', _, rfl, by decide, by decide, by decide, by decide⟩
  | num n =>
    by_cases hneg : n < 0
    · refine ⟨'-', natDigs n.natAbs, ?_, by decide, by decide, by decide, by decide⟩
      simp [dumpsV, intDigs, hneg]
    · obtain ⟨hne, hmem, hhead, hval⟩ := natDigsAux_spec (n.natAbs + 1) n.natAbs (by omega)
      cases hl : natDigs n.natAbs with
      | nil =>
        unfold natDigs at hl
        exact absurd hl hne
      | cons c0 t0 =>
        unfold natDigs at hl
        obtain ⟨k, hk10, hkc, _⟩ := hhead c0 (by rw [hl]; rfl)
        refine ⟨c0, t0, ?_, ?_, ?_, ?_, ?_⟩
        · show intDigs n = c0 :: t0
          rw [intDigs, if_neg hneg]
          unfold natDigs
          exact hl
        · rw [hkc]
          exact digitChar_not_jsonWs k hk10
        · rw [hkc]
          exact digitChar_ne k hk10 ']' (by decide)
        · rw [hkc]
          exact digitChar_ne k hk10 rbrace (by decide)
        · rw [hkc]
          exact digitChar_not_pyWs k hk10
  | str s => exact ⟨quoteC, _, rfl, by decide, by decide, by decide, by decide⟩
  | arr a => exact ⟨'[', _, rfl, by decide, by decide, by decide, by decide⟩
  | obj o => exact ⟨lbrace, _, rfl, by decide, by decide, by decide, by decide⟩

/-- Serialized members start with a quote. -/
theorem dumpsO_cons_head (k : Str) (v : JsonVal) (tl : JsonObj) :
    ∃ t, dumpsO (.cons k v tl) = quoteC :: t := by
  cases tl with
  | nil => exact ⟨_, rfl⟩
  | cons k2 v2 tl2 => exact ⟨_, rfl⟩

/-- Unpack `plainV` on composite values. -/
theorem plainV_arr (a : JsonArr) (h : plainV (.arr a) = true) : plainA a = true := by
  simpa [plainV] using h

/-- Unpack `plainV` on objects. -/
theorem plainV_obj (o : JsonObj) (h : plainV (.obj o) = true) : plainO o = true := by
  simpa [plainV] using h

/-- Unpack `plainV` on strings. -/
theorem plainV_str (s : Str) (h : plainV (.str s) = true) : plainStr s = true := by
  simpa [plainV] using h

/-- Unpack `plainA` over a cons. -/
theorem plainA_cons (x : JsonVal) (tl : JsonArr) (h : plainA (.cons x tl) = true) :
    plainV x = true ∧ plainA tl = true := by
  simpa [plainA, Bool.and_eq_true] using h

/-- Unpack `plainO` over a cons. -/
theorem plainO_cons (k : Str) (v : JsonVal) (tl : JsonObj)
    (h : plainO (.cons k v tl) = true) :
    plainStr k = true ∧ plainV v = true ∧ plainO tl = true := by
  simpa [plainO, Bool.and_eq_true, and_assoc] using h

/-- A non-digit head is a valid numeric delimiter. -/
theorem delim_head (c0 : Char) (h : c0.isDigit = false) (l : Str) :
    ∀ c, (c0 :: l).head? = some c → c.isDigit = false := by
  intro c hc
  rw [List.head?_cons, Option.some.injEq] at hc
  rw [← hc]
  exact h

/-- The parse/serialize round trip: reading back `json.dumps` output (with any
leading whitespace and a non-digit-delimited remainder) recovers the value.
Proved for `parseVal`, `parseElems` and `parseMembers` simultaneously by
induction on the fuel. -/
theorem parse_dumps_rt (f : Nat) :
    (∀ (X : JsonVal) (pre rest : Str), plainV X = true →
      (∀ c ∈ pre, jsonWs c = true) → jfuelV X ≤ f →
      (∀ c, rest.head? = some c → c.isDigit = false) →
      parseVal f (pre ++ (dumpsV X ++ rest)) = some (X, rest)) ∧
    (∀ (x : JsonVal) (tl : JsonArr) (pre rest : Str),
      plainV x = true → plainA tl = true →
      (∀ c ∈ pre, jsonWs c = true) → jfuelA (.cons x tl) ≤ f →
      parseElems f (pre ++ (dumpsA (.cons x tl) ++ (']' :: rest))) =
        some (.cons x tl, rest)) ∧
    (∀ (k : Str) (v : JsonVal) (tl : JsonObj) (pre rest : Str),
      plainStr k = true → plainV v = true → plainO tl = true →
      (∀ c ∈ pre, jsonWs c = true) → jfuelO (.cons k v tl) ≤ f →
      parseMembers f (pre ++ (dumpsO (.cons k v tl) ++ (rbrace :: rest))) =
        some (.cons k v tl, rest)) := by
  induction f with
  | zero =>
    refine ⟨?_, ?_, ?_⟩
    · intro X pre rest _ _ hfu _
      have := jfuelV_pos X
      omega
    · intro x tl pre rest _ _ _ hfu
      rw [jfuelA] at hfu
      omega
    · intro k v tl pre rest _ _ _ _ hfu
      rw [jfuelO] at hfu
      omega
  | succ f ih =>
    obtain ⟨ihV, ihE, ihM⟩ := ih
    refine ⟨?_, ?_, ?_⟩
    · intro X pre rest hplain hpre hfu hrest
      rw [parseVal.eq_def]
      dsimp only
      rw [skipWs_append_ws pre _ hpre]
      cases X with
      | null => rfl
      | bool b => cases b <;> rfl
      | num n =>
        by_cases hneg : n < 0
        · have hd : dumpsV (.num n) = '-' :: natDigs n.natAbs := by
            simp [dumpsV, intDigs, hneg]
          rw [hd, List.cons_append, skipWs_cons_false _ _ (by decide)]
          dsimp only
          rw [if_neg (by decide), if_neg (by decide), if_neg (by decide),
            if_neg (by decide), if_neg (by decide), if_neg (by decide), if_pos rfl]
          rw [parseNat_natDigs n.natAbs rest hrest]
          dsimp only
          have hval : -((n.natAbs : Nat) : Int) = n := by omega
          rw [hval]
        · have hd : dumpsV (.num n) = natDigs n.natAbs := by
            simp [dumpsV, intDigs, hneg]
          obtain ⟨hne', hmem, hhead, _⟩ := natDigsAux_spec (n.natAbs + 1) n.natAbs (by omega)
          cases hl : natDigs n.natAbs with
          | nil =>
            unfold natDigs at hl
            exact absurd hl hne'
          | cons c0 t0 =>
            have hl' : natDigsAux (n.natAbs + 1) n.natAbs = c0 :: t0 := by
              rw [← hl]
              rfl
            obtain ⟨k, hk10, hkc, _⟩ := hhead c0 (by rw [hl']; rfl)
            rw [hd, hl, List.cons_append,
              skipWs_cons_false _ _ (by rw [hkc]; exact digitChar_not_jsonWs k hk10)]
            dsimp only
            rw [if_neg (by rw [hkc]; exact digitChar_ne k hk10 lbrace (by decide)),
              if_neg (by rw [hkc]; exact digitChar_ne k hk10 '[' (by decide)),
              if_neg (by rw [hkc]; exact digitChar_ne k hk10 quoteC (by decide)),
              if_neg (by rw [hkc]; exact digitChar_ne k hk10 't' (by decide)),
              if_neg (by rw [hkc]; exact digitChar_ne k hk10 'f' (by decide)),
              if_neg (by rw [hkc]; exact digitChar_ne k hk10 'n' (by decide)),
              if_neg (by rw [hkc]; exact digitChar_ne k hk10 '-' (by decide))]
            rw [← List.cons_append, ← hl, parseNat_natDigs n.natAbs rest hrest]
            dsimp only
            have hval : ((n.natAbs : Nat) : Int) = n := by omega
            rw [hval]
      | str s =>
        have hps : plainStr s = true := plainV_str s hplain
        have hd : dumpsV (.str s) ++ rest = quoteC :: (s ++ (quoteC :: rest)) := by
          show (quoteC :: (escapeStr s ++ [quoteC])) ++ rest = _
          rw [escapeStr_plain s hps, List.cons_append, List.append_assoc,
            List.singleton_append]
        rw [hd, skipWs_cons_false _ _ (by decide)]
        dsimp only
        rw [if_neg (by decide), if_neg (by decide), if_pos rfl]
        rw [parseStrBody_plain s rest hps]
      | arr a =>
        cases a with
        | nil => rfl
        | cons x tl =>
          obtain ⟨hx, htl⟩ := plainA_cons x tl (plainV_arr _ hplain)
          rw [jfuelV] at hfu
          obtain ⟨c0, t0, hdx, hws, hnb, _, _⟩ := dumpsV_head_spec x
          have hd : dumpsV (.arr (.cons x tl)) ++ rest =
              '[' :: (dumpsA (.cons x tl) ++ (']' :: rest)) := by
            show ('[' :: (dumpsA (.cons x tl) ++ [']'])) ++ rest = _
            rw [List.cons_append, List.append_assoc, List.singleton_append]
          rw [hd, skipWs_cons_false _ _ (by decide)]
          dsimp only
          rw [if_neg (by decide), if_pos rfl]
          have hE := ihE x tl [] rest hx htl (by decide) (by omega)
          rw [List.nil_append] at hE
          have hfront : ∃ T, dumpsA (.cons x tl) ++ (']' :: rest) = c0 :: T := by
            cases tl with
            | nil =>
              refine ⟨t0 ++ (']' :: rest), ?_⟩
              show dumpsV x ++ (']' :: rest) = _
              rw [hdx]
              rfl
            | cons y tl2 =>
              refine ⟨(t0 ++ ',' :: ' ' :: dumpsA (.cons y tl2)) ++ (']' :: rest), ?_⟩
              show (dumpsV x ++ ',' :: ' ' :: dumpsA (.cons y tl2)) ++ (']' :: rest) = _
              rw [hdx]
              rfl
          obtain ⟨T, hfront⟩ := hfront
          rw [hfront, skipWs_cons_false _ _ hws]
          dsimp only
          rw [if_neg hnb, ← hfront, hE]
      | obj o =>
        cases o with
        | nil => rfl
        | cons k v tl =>
          obtain ⟨hk, hv, htl⟩ := plainO_cons k v tl (plainV_obj _ hplain)
          rw [jfuelV] at hfu
          have hd : dumpsV (.obj (.cons k v tl)) ++ rest =
              lbrace :: (dumpsO (.cons k v tl) ++ (rbrace :: rest)) := by
            show (lbrace :: (dumpsO (.cons k v tl) ++ [rbrace])) ++ rest = _
            rw [List.cons_append, List.append_assoc, List.singleton_append]
          rw [hd, skipWs_cons_false _ _ (by decide)]
          dsimp only
          rw [if_pos rfl]
          have hM := ihM k v tl [] rest hk hv htl (by decide) (by omega)
          rw [List.nil_append] at hM
          obtain ⟨t1, ho⟩ := dumpsO_cons_head k v tl
          have hfront : dumpsO (.cons k v tl) ++ (rbrace :: rest) =
              quoteC :: (t1 ++ (rbrace :: rest)) := by
            rw [ho]
            rfl
          rw [hfront, skipWs_cons_false _ _ (by decide)]
          dsimp only
          rw [if_neg (by decide), ← hfront, hM]
    · intro x tl pre rest hx htl hpre hfu
      rw [jfuelA] at hfu
      rw [parseElems.eq_def]
      dsimp only
      cases tl with
      | nil =>
        have hV := ihV x pre (']' :: rest) hx hpre (by omega)
          (delim_head ']' (by decide) rest)
        have hsh : dumpsA (.cons x .nil) ++ (']' :: rest) = dumpsV x ++ (']' :: rest) := rfl
        rw [hsh, hV]
        dsimp only
        rw [skipWs_cons_false _ _ (by decide)]
        dsimp only
        rw [if_neg (by decide), if_pos rfl]
      | cons y tl2 =>
        obtain ⟨hy, htl2⟩ := plainA_cons y tl2 htl
        have hsh : dumpsA (.cons x (.cons y tl2)) ++ (']' :: rest) =
            dumpsV x ++ (',' :: (' ' :: (dumpsA (.cons y tl2) ++ (']' :: rest)))) := by
          show (dumpsV x ++ ',' :: ' ' :: dumpsA (.cons y tl2)) ++ (']' :: rest) = _
          rw [List.append_assoc]
          rfl
        rw [hsh]
        have hV := ihV x pre (',' :: (' ' :: (dumpsA (.cons y tl2) ++ (']' :: rest))))
          hx hpre (by omega) (delim_head ',' (by decide) _)
        rw [hV]
        dsimp only
        rw [skipWs_cons_false _ _ (by decide)]
        dsimp only
        rw [if_pos rfl]
        have hE := ihE y tl2 [' '] rest hy htl2 (by decide) (by omega)
        rw [List.singleton_append] at hE
        rw [hE]
    · intro k v tl pre rest hk hv htl hpre hfu
      rw [jfuelO] at hfu
      rw [parseMembers.eq_def]
      dsimp only
      rw [skipWs_append_ws pre _ hpre]
      cases tl with
      | nil =>
        have hsh : dumpsO (.cons k v .nil) ++ (rbrace :: rest) =
            quoteC :: (k ++ (quoteC :: (':' :: (' ' :: (dumpsV v ++ (rbrace :: rest)))))) := by
          show (quoteC :: (escapeStr k ++ quoteC :: ':' :: ' ' :: dumpsV v)) ++ (rbrace :: rest) = _
          rw [escapeStr_plain k hk, List.cons_append, List.append_assoc]
          rfl
        rw [hsh, skipWs_cons_false _ _ (by decide)]
        dsimp only
        rw [if_pos rfl]
        rw [parseStrBody_plain k _ hk]
        dsimp only
        rw [skipWs_cons_false _ _ (by decide)]
        dsimp only
        rw [if_pos rfl]
        have hV := ihV v [' '] (rbrace :: rest) hv (by decide) (by omega)
          (delim_head rbrace (by decide) rest)
        rw [List.singleton_append] at hV
        rw [hV]
        dsimp only
        rw [skipWs_cons_false _ _ (by decide)]
        dsimp only
        rw [if_neg (by decide), if_pos rfl]
      | cons k2 v2 tl2 =>
        obtain ⟨hk2, hv2, htl2⟩ := plainO_cons k2 v2 tl2 htl
        have hsh : dumpsO (.cons k v (.cons k2 v2 tl2)) ++ (rbrace :: rest) =
            quoteC :: (k ++ (quoteC :: (':' :: (' ' ::
              (dumpsV v ++ (',' :: (' ' ::
                (dumpsO (.cons k2 v2 tl2) ++ (rbrace :: rest))))))))) := by
          show ((quoteC :: (escapeStr k ++ quoteC :: ':' :: ' ' :: dumpsV v)) ++
              ',' :: ' ' :: dumpsO (.cons k2 v2 tl2)) ++ (rbrace :: rest) = _
          rw [escapeStr_plain k hk]
          simp [List.append_assoc]
        rw [hsh, skipWs_cons_false _ _ (by decide)]
        dsimp only
        rw [if_pos rfl]
        rw [parseStrBody_plain k _ hk]
        dsimp only
        rw [skipWs_cons_false _ _ (by decide)]
        dsimp only
        rw [if_pos rfl]
        have hV := ihV v [' ']
          (',' :: (' ' :: (dumpsO (.cons k2 v2 tl2) ++ (rbrace :: rest))))
          hv (by decide) (by omega) (delim_head ',' (by decide) _)
        rw [List.singleton_append] at hV
        rw [hV]
        dsimp only
        rw [skipWs_cons_false _ _ (by decide)]
        dsimp only
        rw [if_pos rfl]
        have hM := ihM k2 v2 tl2 [' '] rest hk2 hv2 htl2 (by decide) (by omega)
        rw [List.singleton_append] at hM
        rw [hM]

mutual
/-- Fuel is bounded by serialized length. -/
theorem jfuelV_le_len : (X : JsonVal) → jfuelV X ≤ (dumpsV X).length
  | .null => by decide
  | .bool b => by cases b <;> decide
  | .num n => by
    have h : intDigs n ≠ [] := by
      unfold intDigs
      split
      · simp
      · obtain ⟨hne, _, _, _⟩ := natDigsAux_spec (n.natAbs + 1) n.natAbs (by omega)
        exact hne
    show jfuelV (.num n) ≤ (intDigs n).length
    cases hi : intDigs n with
    | nil => exact absurd hi h
    | cons a b => simp [jfuelV]
  | .str s => by
    show jfuelV (.str s) ≤ (quoteC :: (escapeStr s ++ [quoteC])).length
    simp [jfuelV]
  | .arr .nil => by decide
  | .arr (.cons x tl) => by
    have h := jfuelA_le_len (.cons x tl)
    show 1 + jfuelA (.cons x tl) ≤ ('[' :: (dumpsA (.cons x tl) ++ [']'])).length
    simp only [List.length_cons, List.length_append, List.length_singleton]
    omega
  | .obj .nil => by decide
  | .obj (.cons k v tl) => by
    have h := jfuelO_le_len (.cons k v tl)
    show 1 + jfuelO (.cons k v tl) ≤ (lbrace :: (dumpsO (.cons k v tl) ++ [rbrace])).length
    simp only [List.length_cons, List.length_append, List.length_singleton]
    omega
termination_by structural X => X
/-- Fuel is bounded by serialized length plus one (array lists). -/
theorem jfuelA_le_len : (a : JsonArr) → jfuelA a ≤ (dumpsA a).length + 1
  | .nil => by simp [jfuelA, dumpsA]
  | .cons x .nil => by
    have h := jfuelV_le_len x
    show 1 + jfuelV x + jfuelA .nil ≤ (dumpsV x).length + 1
    simp only [jfuelA]
    omega
  | .cons x (.cons y tl) => by
    have h1 := jfuelV_le_len x
    have h2 := jfuelA_le_len (.cons y tl)
    show 1 + jfuelV x + jfuelA (.cons y tl) ≤
      (dumpsV x ++ ',' :: ' ' :: dumpsA (.cons y tl)).length + 1
    simp only [List.length_append, List.length_cons]
    omega
termination_by structural a => a
/-- Fuel is bounded by serialized length plus one (member lists). -/
theorem jfuelO_le_len : (o : JsonObj) → jfuelO o ≤ (dumpsO o).length + 1
  | .nil => by simp [jfuelO, dumpsO]
  | .cons k v .nil => by
    have h := jfuelV_le_len v
    show 1 + jfuelV v + jfuelO .nil ≤
      (quoteC :: (escapeStr k ++ quoteC :: ':' :: ' ' :: dumpsV v)).length + 1
    simp only [jfuelO, List.length_cons, List.length_append]
    omega
  | .cons k v (.cons k2 v2 tl) => by
    have h1 := jfuelV_le_len v
    have h2 := jfuelO_le_len (.cons k2 v2 tl)
    show 1 + jfuelV v + jfuelO (.cons k2 v2 tl) ≤
      ((quoteC :: (escapeStr k ++ quoteC :: ':' :: ' ' :: dumpsV v)) ++
        ',' :: ' ' :: dumpsO (.cons k2 v2 tl)).length + 1
    simp only [List.length_append, List.length_cons]
    omega
termination_by structural o => o
end

/-- `json.loads` inverts `json.dumps` on plain values. -/
theorem jsonParse_dumps (X : JsonVal) (hp : plainV X = true) :
    jsonParse (dumpsV X) = some X := by
  unfold jsonParse
  have h := (parse_dumps_rt ((dumpsV X).length + 1)).1 X [] [] hp
    (by intro c hc; exact absurd hc (List.not_mem_nil c))
    (by have := jfuelV_le_len X; omega)
    (by intro c hc; simp at hc)
  rw [List.nil_append, List.append_nil] at h
  rw [h]
  rfl

/-- The last character of the decimal rendering is a digit. -/
theorem natDigsAux_last (fuel n : Nat) (h : n < fuel) :
    ∃ k, k < 10 ∧ (natDigsAux fuel n).getLast? = some (digitChar k) := by
  induction fuel generalizing n with
  | zero => omega
  | succ m ih =>
    by_cases hn : n < 10
    · exact ⟨n, hn, by rw [natDigsAux, if_pos hn]; rfl⟩
    · refine ⟨n % 10, by omega, ?_⟩
      rw [natDigsAux, if_neg hn]
      exact List.getLast?_concat _

/-- The serialized form of a value ends with a non-`strip`-whitespace
character. -/
theorem dumpsV_last_spec (X : JsonVal) :
    ∃ c, (dumpsV X).getLast? = some c ∧ pyWs c = false := by
  cases X with
  | null => exact ⟨'l', by decide, by decide⟩
  | bool b =>
    cases b with
    | true => exact ⟨'e', by decide, by decide⟩
    | false => exact ⟨'e', by decide, by decide⟩
  | num n =>
    obtain ⟨k, hk, hlast⟩ := natDigsAux_last (n.natAbs + 1) n.natAbs (by omega)
    by_cases hneg : n < 0
    · refine ⟨digitChar k, ?_, digitChar_not_pyWs k hk⟩
      show (intDigs n).getLast? = _
      rw [intDigs, if_pos hneg]
      rw [show ('-' :: natDigs n.natAbs) = ['-'] ++ natDigs n.natAbs from rfl]
      rw [List.getLast?_append_of_ne_nil]
      · exact hlast
      · obtain ⟨hne, _, _, _⟩ := natDigsAux_spec (n.natAbs + 1) n.natAbs (by omega)
        exact hne
    · refine ⟨digitChar k, ?_, digitChar_not_pyWs k hk⟩
      show (intDigs n).getLast? = _
      rw [intDigs, if_neg hneg]
      exact hlast
  | str s =>
    refine ⟨quoteC, ?_, by decide⟩
    show (quoteC :: (escapeStr s ++ [quoteC])).getLast? = _
    rw [show quoteC :: (escapeStr s ++ [quoteC]) = (quoteC :: escapeStr s) ++ [quoteC] from rfl]
    exact List.getLast?_concat _
  | arr a =>
    refine ⟨']', ?_, by decide⟩
    show ('[' :: (dumpsA a ++ [']'])).getLast? = _
    rw [show '[' :: (dumpsA a ++ [']']) = ('[' :: dumpsA a) ++ [']'] from rfl]
    exact List.getLast?_concat _
  | obj o =>
    refine ⟨rbrace, ?_, by decide⟩
    show (lbrace :: (dumpsO o ++ [rbrace])).getLast? = _
    rw [show lbrace :: (dumpsO o ++ [rbrace]) = (lbrace :: dumpsO o) ++ [rbrace] from rfl]
    exact List.getLast?_concat _

/-- Stripping leaves a serialized value (with its trailing print newline)
untouched apart from the newline. -/
theorem pyStrip_dumps (X : JsonVal) : pyStrip (dumpsV X ++ ['\n']) = dumpsV X := by
  rw [pyStrip_append_ws _ '\n' rfl]
  obtain ⟨c, t, hd, _, _, _, hws⟩ := dumpsV_head_spec X
  obtain ⟨c2, hl2, hws2⟩ := dumpsV_last_spec X
  apply pyStrip_eq_self
  · intro d hdc
    rw [hd, List.head?_cons, Option.some.injEq] at hdc
    rw [← hdc]
    exact hws
  · intro d hdc
    rw [hl2, Option.some.injEq] at hdc
    rw [← hdc]
    exact hws2

/-- A serialized value strips to a non-empty string. -/
theorem dumpsV_strip_ne (X : JsonVal) : (pyStrip (dumpsV X ++ ['\n'])).isEmpty = false := by
  rw [pyStrip_dumps]
  obtain ⟨c, t, hd, _⟩ := dumpsV_head_spec X
  rw [hd]
  rfl

/-! ## Key sorting: idempotence and plainness (for claim C6) -/

/-- Characters with equal code points are equal. -/
theorem char_eq_of_toNat_eq (c d : Char) (h : c.toNat = d.toNat) : c = d :=
  Char.eq_of_val_eq (UInt32.toNat.inj h)

/-- `keyLe` is total. -/
theorem keyLe_total (a : Str) : ∀ b : Str, keyLe a b = true ∨ keyLe b a = true := by
  induction a with
  | nil => intro b; left; rfl
  | cons c t ih =>
    intro b
    cases b with
    | nil => right; rfl
    | cons d u =>
      by_cases hcd : c = d
      · subst hcd
        rcases ih u with h | h
        · left
          rw [keyLe, if_pos rfl]
          exact h
        · right
          rw [keyLe, if_pos rfl]
          exact h
      · have hne : c.toNat ≠ d.toNat := fun he => hcd (char_eq_of_toNat_eq c d he)
        rcases Nat.lt_or_ge c.toNat d.toNat with h | h
        · left
          rw [keyLe, if_neg hcd]
          simpa using h
        · right
          rw [keyLe, if_neg (fun he => hcd he.symm)]
          simp only [decide_eq_true_eq]
          omega

/-- Adjacent key-sortedness of a member list. -/
def sortedO : JsonObj → Bool
  | .nil => true
  | .cons _ _ .nil => true
  | .cons k _ (.cons k2 v2 tl) => keyLe k k2 && sortedO (.cons k2 v2 tl)

/-- Inserting into a sorted member list keeps it sorted. -/
theorem insertKV_sorted (k : Str) (v : JsonVal) :
    (l : JsonObj) → sortedO l = true → sortedO (insertKV k v l) = true
  | .nil, _ => rfl
  | .cons k2 v2 tl, h => by
    rw [insertKV]
    by_cases hle : keyLe k k2 = true
    · rw [if_pos hle]
      show (keyLe k k2 && sortedO (.cons k2 v2 tl)) = true
      rw [hle, h]
      rfl
    · rw [if_neg hle]
      have hge : keyLe k2 k = true := (keyLe_total k k2).resolve_left hle
      cases tl with
      | nil =>
        show (keyLe k2 k && sortedO (.cons k v .nil)) = true
        rw [hge]
        rfl
      | cons k3 v3 tl2 =>
        have hparts : keyLe k2 k3 = true ∧ sortedO (.cons k3 v3 tl2) = true := by
          have h2 := h
          rw [sortedO] at h2
          simp only [Bool.and_eq_true] at h2
          exact h2
        have htail : sortedO (insertKV k v (.cons k3 v3 tl2)) = true :=
          insertKV_sorted k v (.cons k3 v3 tl2) hparts.2
        rw [insertKV]
        by_cases hle3 : keyLe k k3 = true
        · rw [if_pos hle3]
          show (keyLe k2 k && sortedO (.cons k v (.cons k3 v3 tl2))) = true
          rw [hge]
          show sortedO (.cons k v (.cons k3 v3 tl2)) = true
          rw [sortedO, hle3]
          simpa using hparts.2
        · rw [if_neg hle3]
          show (keyLe k2 k3 && sortedO (.cons k3 v3 (insertKV k v tl2))) = true
          rw [hparts.1]
          have h3 := htail
          rw [insertKV, if_neg hle3] at h3
          simpa using h3
termination_by structural l => l

/-- Insertion sort produces a sorted member list. -/
theorem insortO_sorted : (o : JsonObj) → sortedO (insortO o) = true
  | .nil => rfl
  | .cons k v tl => insertKV_sorted k v (insortO tl) (insortO_sorted tl)
termination_by structural o => o

/-- Sorted member lists are fixed points of insertion sort. -/
theorem insortO_fix : (l : JsonObj) → sortedO l = true → insortO l = l
  | .nil, _ => rfl
  | .cons k v tl, h => by
    rw [insortO]
    cases tl with
    | nil => rfl
    | cons k2 v2 tl2 =>
      have hparts : keyLe k k2 = true ∧ sortedO (.cons k2 v2 tl2) = true := by
        have h2 := h
        rw [sortedO] at h2
        simp only [Bool.and_eq_true] at h2
        exact h2
      rw [insortO_fix (.cons k2 v2 tl2) hparts.2, insertKV, if_pos hparts.1]
termination_by structural l => l

/-- Mapping over values commutes with insertion (keys are untouched). -/
theorem sortKeysO_insertKV (k : Str) (v : JsonVal) :
    (l : JsonObj) → sortKeysO (insertKV k v l) = insertKV k (sortKeysV v) (sortKeysO l)
  | .nil => rfl
  | .cons k2 v2 tl => by
    rw [insertKV]
    by_cases hle : keyLe k k2 = true
    · rw [if_pos hle]
      show JsonObj.cons k (sortKeysV v) (sortKeysO (.cons k2 v2 tl)) = _
      rw [sortKeysO, insertKV, if_pos hle]
    · rw [if_neg hle]
      show JsonObj.cons k2 (sortKeysV v2) (sortKeysO (insertKV k v tl)) = _
      rw [sortKeysO_insertKV k v tl, sortKeysO, insertKV, if_neg hle]
termination_by structural l => l

/-- Mapping over values commutes with insertion sort. -/
theorem sortKeysO_insortO : (l : JsonObj) → sortKeysO (insortO l) = insortO (sortKeysO l)
  | .nil => rfl
  | .cons k v tl => by
    rw [insortO, sortKeysO_insertKV, sortKeysO_insortO tl]
    rfl
termination_by structural l => l

mutual
/-- Key sorting is idempotent. -/
theorem sortKeysV_idem : (X : JsonVal) → sortKeysV (sortKeysV X) = sortKeysV X
  | .null => rfl
  | .bool _ => rfl
  | .num _ => rfl
  | .str _ => rfl
  | .arr a => by
    show JsonVal.arr (sortKeysA (sortKeysA a)) = JsonVal.arr (sortKeysA a)
    rw [sortKeysA_idem a]
  | .obj o => by
    show JsonVal.obj (insortO (sortKeysO (insortO (sortKeysO o)))) =
      JsonVal.obj (insortO (sortKeysO o))
    rw [sortKeysO_insortO, sortKeysO_idem o,
      insortO_fix (insortO (sortKeysO o)) (insortO_sorted (sortKeysO o))]
termination_by structural X => X
/-- Key sorting inside array elements is idempotent. -/
theorem sortKeysA_idem : (a : JsonArr) → sortKeysA (sortKeysA a) = sortKeysA a
  | .nil => rfl
  | .cons x tl => by
    show JsonArr.cons (sortKeysV (sortKeysV x)) (sortKeysA (sortKeysA tl)) =
      JsonArr.cons (sortKeysV x) (sortKeysA tl)
    rw [sortKeysV_idem x, sortKeysA_idem tl]
termination_by structural a => a
/-- Key sorting inside member values is idempotent. -/
theorem sortKeysO_idem : (o : JsonObj) → sortKeysO (sortKeysO o) = sortKeysO o
  | .nil => rfl
  | .cons k v tl => by
    show JsonObj.cons k (sortKeysV (sortKeysV v)) (sortKeysO (sortKeysO tl)) =
      JsonObj.cons k (sortKeysV v) (sortKeysO tl)
    rw [sortKeysV_idem v, sortKeysO_idem tl]
termination_by structural o => o
end

/-- Insertion keeps a member list plain. -/
theorem plainO_insertKV (k : Str) (v : JsonVal)
    (h1 : plainStr k = true) (h2 : plainV v = true) :
    (l : JsonObj) → plainO l = true → plainO (insertKV k v l) = true
  | .nil, _ => by
    show (plainStr k && plainV v && plainO .nil) = true
    rw [h1, h2]
    rfl
  | .cons k2 v2 tl, h3 => by
    obtain ⟨hk2, hv2, htl⟩ := plainO_cons k2 v2 tl h3
    rw [insertKV]
    by_cases hle : keyLe k k2 = true
    · rw [if_pos hle]
      show (plainStr k && plainV v && plainO (.cons k2 v2 tl)) = true
      rw [h1, h2, h3]
      rfl
    · rw [if_neg hle]
      show (plainStr k2 && plainV v2 && plainO (insertKV k v tl)) = true
      rw [hk2, hv2, plainO_insertKV k v h1 h2 tl htl]
      rfl
termination_by structural l => l

/-- Insertion sort keeps a member list plain. -/
theorem plainO_insortO : (l : JsonObj) → plainO l = true → plainO (insortO l) = true
  | .nil, _ => rfl
  | .cons k v tl, h => by
    obtain ⟨hk, hv, htl⟩ := plainO_cons k v tl h
    exact plainO_insertKV k v hk hv (insortO tl) (plainO_insortO tl htl)
termination_by structural l => l

mutual
/-- Key sorting keeps values plain. -/
theorem plainV_sortKeys : (X : JsonVal) → plainV X = true → plainV (sortKeysV X) = true
  | .null, h => h
  | .bool _, h => h
  | .num _, h => h
  | .str _, h => h
  | .arr a, h => by
    show plainA (sortKeysA a) = true
    exact plainA_sortKeys a (plainV_arr a h)
  | .obj o, h => by
    show plainO (insortO (sortKeysO o)) = true
    exact plainO_insortO _ (plainO_sortKeys o (plainV_obj o h))
termination_by structural X => X
/-- Key sorting keeps array elements plain. -/
theorem plainA_sortKeys : (a : JsonArr) → plainA a = true → plainA (sortKeysA a) = true
  | .nil, h => h
  | .cons x tl, h => by
    obtain ⟨hx, htl⟩ := plainA_cons x tl h
    show (plainV (sortKeysV x) && plainA (sortKeysA tl)) = true
    rw [plainV_sortKeys x hx, plainA_sortKeys tl htl]
    rfl
termination_by structural a => a
/-- Key sorting keeps member values plain. -/
theorem plainO_sortKeys : (o : JsonObj) → plainO o = true → plainO (sortKeysO o) = true
  | .nil, h => h
  | .cons k v tl, h => by
    obtain ⟨hk, hv, htl⟩ := plainO_cons k v tl h
    show (plainStr k && plainV (sortKeysV v) && plainO (sortKeysO tl)) = true
    rw [hk, plainV_sortKeys v hv, plainO_sortKeys tl htl]
    rfl
termination_by structural o => o
end

/-! ## Claim C6: the success round trip -/

/-- The validation outcome for a script whose entire output is one serialized
plain value plus the print newline. -/
theorem runOutcome_dumps (X : JsonVal) (hp : plainV X = true) :
    runOutcome (execResultOf
      { outText := dumpsV X ++ ['\n'], errText := [], raises := none }) =
      Except.ok (dumpsV X) := by
  unfold runOutcome execResultOf
  dsimp only
  rw [if_neg (by decide : ¬(isSubstr tbMarker [] = true))]
  rw [pyStrip_dumps X]
  obtain ⟨c, t, hd, _⟩ := dumpsV_head_spec X
  rw [if_neg (by rw [hd]; exact Bool.false_ne_true)]
  rw [jsonParse_dumps X hp]

/-- A request carrying the question part has a readable question file. -/
theorem lookupLast_qtxt (reqFiles : List (Str × Str))
    (hq : reqFiles.any (fun e => e.1 == qtxt) = true) :
    ∃ q, lookupLast (reqFiles.map (fun e => (basename e.1, e.2))) qtxt = some q := by
  obtain ⟨e, he, hbe⟩ := List.any_eq_true.mp hq
  have hname : e.1 = qtxt := by simpa using hbe
  have hmem : (qtxt, e.2) ∈ reqFiles.map (fun e => (basename e.1, e.2)) := by
    refine List.mem_map.mpr ⟨e, he, ?_⟩
    rw [hname]
    rfl
  unfold lookupLast
  have hne : (reqFiles.map (fun e => (basename e.1, e.2))).filter (fun e => e.1 == qtxt) ≠ [] := by
    intro hnil
    have hin : (qtxt, e.2) ∈
        (reqFiles.map (fun e => (basename e.1, e.2))).filter (fun e => e.1 == qtxt) :=
      List.mem_filter.mpr ⟨hmem, by simp⟩
    rw [hnil] at hin
    exact absurd hin (List.not_mem_nil _)
  cases hlast : ((reqFiles.map (fun e => (basename e.1, e.2))).filter
      (fun e => e.1 == qtxt)).getLast? with
  | none => exact absurd (List.getLast?_eq_none_iff.mp hlast) hne
  | some p => exact ⟨p.2, rfl⟩

/-- C6 counterexample: a script whose *final* print is `json.dumps([1, 2])`
but which printed another line first: the handler answers 500, not the JSON
payload. -/
theorem handler_roundtrip_counterexample :
    dumpsV (JsonVal.arr (.cons (.num 1) (.cons (.num 2) .nil))) = "[1, 2]".data ∧
      (handle_analysis_request (some "K".data) [(qtxt, "q".data)] "u1".data
          (fun _ => ModelCallResult.ok witResp)
          (fun _ _ => { outText := "note\n[1, 2]\n".data, errText := [], raises := none })
          [] witState).1.status = 500 := by
  exact ⟨rfl, rfl⟩

/-- C6 (amended): for every request that reaches the agent (key configured,
question part present) whose generated script writes exactly
`json.dumps(X)` plus a newline as its standard output — for a plain
serializable value `X` — and nothing to stderr, the handler responds 200;
the body is the Flask re-serialization of `X` (keys recursively sorted), and
parsing the response body yields `X` up to key ordering (its canonical
key-sorted form, which is a fixed point of key sorting). -/
theorem handler_roundtrip (X : JsonVal) (key : Str) (reqFiles : List (Str × Str))
    (rid text : Str) (fs : FS) (st : ProcState)
    (hplain : plainV X = true)
    (hq : reqFiles.any (fun e => e.1 == qtxt) = true) :
    (handle_analysis_request (some key) reqFiles rid (fun _ => ModelCallResult.ok text)
        (fun _ _ => { outText := dumpsV X ++ ['\n'], errText := [], raises := none })
        fs st).1.status = 200 ∧
      (handle_analysis_request (some key) reqFiles rid (fun _ => ModelCallResult.ok text)
          (fun _ _ => { outText := dumpsV X ++ ['\n'], errText := [], raises := none })
          fs st).1.body = flaskJsonify X ∧
      jsonParse ((handle_analysis_request (some key) reqFiles rid
          (fun _ => ModelCallResult.ok text)
          (fun _ _ => { outText := dumpsV X ++ ['\n'], errText := [], raises := none })
          fs st).1.body) = some (sortKeysV X) ∧
      sortKeysV (sortKeysV X) = sortKeysV X := by
  obtain ⟨q, hlk⟩ := lookupLast_qtxt reqFiles hq
  have hbody : (handle_analysis_request (some key) reqFiles rid
      (fun _ => ModelCallResult.ok text)
      (fun _ _ => { outText := dumpsV X ++ ['\n'], errText := [], raises := none })
      fs st).1 = { status := 200, body := flaskJsonify X } := by
    unfold handle_analysis_request
    simp only [hq, Bool.not_true, Bool.false_eq_true, if_false]
    rw [hlk]
    dsimp only
    rw [agentRun_ok_eq (pathJoin "temp".data rid) q
      ((((reqFiles.map (fun e => (basename e.1, e.2))).filter
          (fun e => !(e.1 == qtxt))).map (fun e => e.1)))
      (fun _ => ModelCallResult.ok text)
      (fun _ _ => { outText := dumpsV X ++ ['\n'], errText := [], raises := none })
      st text rfl]
    dsimp only
    rw [runOutcome_dumps X hplain]
    dsimp only
    rw [jsonParse_dumps X hplain]
  refine ⟨by rw [hbody], by rw [hbody], ?_, sortKeysV_idem X⟩
  rw [hbody]
  show jsonParse (flaskJsonify X) = some (sortKeysV X)
  unfold flaskJsonify
  exact jsonParse_dumps (sortKeysV X) (plainV_sortKeys X hplain)

/-- C6 (amended) witness: a concrete object round-trips with sorted keys. -/
theorem handler_roundtrip_witness :
    (handle_analysis_request (some "K".data) [(qtxt, "q".data)] "u1".data
        (fun _ => ModelCallResult.ok witResp)
        (fun _ _ =>
          { outText := dumpsV (JsonVal.obj (.cons "b".data (.num 1)
              (.cons "a".data (.str "hi".data) .nil))) ++ ['\n'],
            errText := [], raises := none })
        [] witState).1.status = 200 ∧
      (handle_analysis_request (some "K".data) [(qtxt, "q".data)] "u1".data
          (fun _ => ModelCallResult.ok witResp)
          (fun _ _ =>
            { outText := dumpsV (JsonVal.obj (.cons "b".data (.num 1)
                (.cons "a".data (.str "hi".data) .nil))) ++ ['\n'],
              errText := [], raises := none })
          [] witState).1.body =
        flaskJsonify (JsonVal.obj (.cons "b".data (.num 1)
          (.cons "a".data (.str "hi".data) .nil))) ∧
      jsonParse ((handle_analysis_request (some "K".data) [(qtxt, "q".data)] "u1".data
          (fun _ => ModelCallResult.ok witResp)
          (fun _ _ =>
            { outText := dumpsV (JsonVal.obj (.cons "b".data (.num 1)
                (.cons "a".data (.str "hi".data) .nil))) ++ ['\n'],
              errText := [], raises := none })
          [] witState).1.body) =
        some (sortKeysV (JsonVal.obj (.cons "b".data (.num 1)
          (.cons "a".data (.str "hi".data) .nil)))) ∧
      sortKeysV (sortKeysV (JsonVal.obj (.cons "b".data (.num 1)
          (.cons "a".data (.str "hi".data) .nil)))) =
        sortKeysV (JsonVal.obj (.cons "b".data (.num 1)
          (.cons "a".data (.str "hi".data) .nil))) :=
  handler_roundtrip
    (JsonVal.obj (.cons "b".data (.num 1) (.cons "a".data (.str "hi".data) .nil)))
    "K".data [(qtxt, "q".data)] "u1".data witResp [] witState rfl (by decide)

end DataMate
